import Mathlib

set_option autoImplicit false

/-!
# Verification of the snapshot-manager retention and lifecycle engine

Shallow embedding of `src/snapshot_manager/snapshot_manager.py`.

The Python program drives external tools (`zfs`, `docker`, `mountpoint`,
`umount`, `mount`, `mkdir`, and an HTTP notifier) through `subprocess.run`,
branching on their return codes and raising `RuntimeError` on fatal failures.

We model the external world as a `World` holding the set of existing ZFS
snapshots, the set of current mount points, and an oracle `ok : Cmd → Bool`
deciding whether each fallible external command succeeds.  Every issued
command is recorded in a trace, so ordering claims are statements about the
trace.  A Python function raising `RuntimeError` is modelled as a `Result`
that is either `ok` or `err`, in both cases carrying the state reached (side
effects performed before an exception are kept, as in Python).

Snapshot identifiers `f"{origin}@backup"` / `f"{origin}@backup-{i}"` and
mount paths `destination` / `f"{destination}/{child}"` are modelled
structurally (`SnapId`, `MPath`), mirroring the injective string formats the
program uses.  Return codes are modelled as `0` for success and `1` for
failure, matching the program's `returncode == 0` / `!= 0` tests.
-/

/-- A ZFS snapshot identifier: `origin@backup` or `origin@backup-i`. -/
inductive SnapId where
  | cur (origin : String)
  | gen (origin : String) (i : Nat)
  deriving DecidableEq, Repr

/-- A mount path: the destination itself or `destination/child`. -/
inductive MPath where
  | root (dest : String)
  | sub (dest : String) (child : String)
  deriving DecidableEq, Repr

/-- One external command issued via `subprocess.run` (or the HTTP notifier). -/
inductive Cmd where
  | zfsList (s : SnapId)
  | zfsDestroy (s : SnapId)
  | zfsRename (a : SnapId) (b : SnapId)
  | zfsSnapshot (s : SnapId)
  | dockerStop (cs : List String)
  | dockerStart (cs : List String)
  | mountpointCheck (p : MPath)
  | umountCmd (p : MPath)
  | mountCmd (s : SnapId) (p : MPath)
  | mkdirCmd (p : MPath)
  | notifyCmd (url : String) (status : String) (msg : String)
  deriving DecidableEq, Repr

/-- The external world: existing snapshots, current mount points, and a
success oracle for the fallible commands. -/
structure World where
  snaps : List SnapId
  mounted : List MPath
  ok : Cmd → Bool

/-- Semantics of one external command: return code and updated world.
`zfs list`/`mountpoint -q` report existence; mutating commands succeed when
the oracle allows it and the operation is possible (`zfs destroy` needs the
snapshot, `zfs rename` needs a free target, `zfs snapshot` a free name,
`umount` a mounted path), as the real tools do. -/
def exec : Cmd → World → Nat × World
  | .zfsList s, w => (if s ∈ w.snaps then 0 else 1, w)
  | .zfsDestroy s, w =>
      if w.ok (.zfsDestroy s) = true ∧ s ∈ w.snaps then
        (0, { w with snaps := w.snaps.erase s })
      else (1, w)
  | .zfsRename a b, w =>
      if w.ok (.zfsRename a b) = true ∧ a ∈ w.snaps ∧ b ∉ w.snaps then
        (0, { w with snaps := w.snaps.erase a ++ [b] })
      else (1, w)
  | .zfsSnapshot s, w =>
      if w.ok (.zfsSnapshot s) = true ∧ s ∉ w.snaps then
        (0, { w with snaps := w.snaps ++ [s] })
      else (1, w)
  | .dockerStop cs, w => (if w.ok (.dockerStop cs) = true then 0 else 1, w)
  | .dockerStart cs, w => (if w.ok (.dockerStart cs) = true then 0 else 1, w)
  | .mountpointCheck p, w => (if p ∈ w.mounted then 0 else 1, w)
  | .umountCmd p, w =>
      if w.ok (.umountCmd p) = true ∧ p ∈ w.mounted then
        (0, { w with mounted := w.mounted.erase p })
      else (1, w)
  | .mountCmd s p, w =>
      if w.ok (.mountCmd s p) = true then
        (0, { w with mounted := w.mounted ++ [p] })
      else (1, w)
  | .mkdirCmd p, w => (if w.ok (.mkdirCmd p) = true then 0 else 1, w)
  | .notifyCmd _ _ _, w => (0, w)

/-- Program state: the world plus the trace of commands issued so far. -/
structure St where
  world : World
  trace : List Cmd

/-- Issue one external command: run it against the world and record it. -/
def runCmd (c : Cmd) (st : St) : Nat × St :=
  let p := exec c st.world
  (p.1, { world := p.2, trace := st.trace ++ [c] })

/-- Outcome of a (possibly raising) Python function returning `None`:
either normal return or a raised `RuntimeError`, in both cases with the
state reached. -/
inductive Result where
  | ok (st : St)
  | err (msg : String) (st : St)

/-- The state carried by a `Result`, whether it returned or raised. -/
def Result.state : Result → St
  | .ok st => st
  | .err _ st => st

/-- Sequencing: run `f` on the state if the first step returned normally,
propagate the exception otherwise. -/
def Result.andThen (r : Result) (f : St → Result) : Result :=
  match r with
  | .ok st => f st
  | .err m st => .err m st

/-! ## The data model of the configuration (`Mount`, `App`, `Configuration`) -/

/-- `class Mount`: one origin-to-destination snapshot publication unit. -/
structure Mount where
  origin : String
  destination : String
  children : List String
  deriving DecidableEq, Repr

/-- `class App`: one backup unit. -/
structure App where
  name : String
  containers : List String
  mounts : List Mount
  deriving DecidableEq, Repr

/-- `class Configuration`. -/
structure Configuration where
  retention : Nat
  backup_containers : List String
  monitor_url : Option String
  apps : List App
  deriving DecidableEq, Repr

/-! ## The snapshot rotation functions -/

/-- `remove_mount_last_snapshot(mount, app_name, retention)`:
if `origin@backup-retention` exists, destroy it; a failed destroy raises. -/
def remove_mount_last_snapshot (mount : Mount) (app_name : String)
    (retention : Nat) (st : St) : Result :=
  let p := runCmd (.zfsList (.gen mount.origin retention)) st
  if p.1 = 0 then
    let q := runCmd (.zfsDestroy (.gen mount.origin retention)) p.2
    if q.1 ≠ 0 then
      .err ("Failed to destroy " ++ app_name ++ " " ++ mount.origin ++
        " snapshot with age " ++ toString retention) q.2
    else .ok q.2
  else .ok p.2

/-- The body of `for i in range(retention - 1, 0, -1)` in
`rename_mount_snapshots`, recursing on the loop counter: the call with
counter `n` processes `i = n, n-1, ..., 1`.  For each `i`, if
`origin@backup-i` exists rename it to `origin@backup-(i+1)`;
a failed rename raises. -/
def rename_mount_snapshots_from (mount : Mount) (app_name : String) :
    Nat → St → Result
  | 0, st => .ok st
  | n + 1, st =>
    let p := runCmd (.zfsList (.gen mount.origin (n + 1))) st
    if p.1 = 0 then
      let q := runCmd
        (.zfsRename (.gen mount.origin (n + 1)) (.gen mount.origin (n + 2))) p.2
      if q.1 ≠ 0 then
        .err ("Failed to rename " ++ app_name ++ " " ++ mount.origin ++
          " snapshot with age " ++ toString (n + 1)) q.2
      else rename_mount_snapshots_from mount app_name n q.2
    else rename_mount_snapshots_from mount app_name n p.2

/-- `rename_mount_snapshots(mount, app_name, retention)`:
`for i in range(retention - 1, 0, -1): ...`. -/
def rename_mount_snapshots (mount : Mount) (app_name : String)
    (retention : Nat) (st : St) : Result :=
  rename_mount_snapshots_from mount app_name (retention - 1) st

/-- `rename_mount_latest_snapshot(mount, app_name)`:
if `origin@backup` exists, rename it to `origin@backup-1`. -/
def rename_mount_latest_snapshot (mount : Mount) (app_name : String)
    (st : St) : Result :=
  let p := runCmd (.zfsList (.cur mount.origin)) st
  if p.1 = 0 then
    let q := runCmd (.zfsRename (.cur mount.origin) (.gen mount.origin 1)) p.2
    if q.1 ≠ 0 then
      .err ("Failed to rename " ++ app_name ++ " " ++ mount.origin ++
        " snapshot") q.2
    else .ok q.2
  else .ok p.2

/-- The body of the `for mount in app.mounts` loop of `remove_last_snapshot`. -/
def remove_last_snapshot_loop (mounts : List Mount) (app_name : String)
    (retention : Nat) (st : St) : Result :=
  match mounts with
  | [] => .ok st
  | m :: rest =>
    (remove_mount_last_snapshot m app_name retention st).andThen fun st =>
      remove_last_snapshot_loop rest app_name retention st

/-- `remove_last_snapshot(app, retention)`: the prune pass over all mounts. -/
def remove_last_snapshot (app : App) (retention : Nat) (st : St) : Result :=
  remove_last_snapshot_loop app.mounts app.name retention st

/-- The three-step archive body executed per mount by `archive_snapshots`. -/
def archive_mount (mount : Mount) (app_name : String) (retention : Nat)
    (st : St) : Result :=
  (remove_mount_last_snapshot mount app_name retention st).andThen fun st =>
  (rename_mount_snapshots mount app_name retention st).andThen fun st =>
  rename_mount_latest_snapshot mount app_name st

/-- The `for mount in app.mounts` loop of `archive_snapshots`. -/
def archive_snapshots_loop (mounts : List Mount) (app_name : String)
    (retention : Nat) (st : St) : Result :=
  match mounts with
  | [] => .ok st
  | m :: rest =>
    (archive_mount m app_name retention st).andThen fun st =>
      archive_snapshots_loop rest app_name retention st

/-- `archive_snapshots(app, retention)`. -/
def archive_snapshots (app : App) (retention : Nat) (st : St) : Result :=
  archive_snapshots_loop app.mounts app.name retention st

/-! ## Container control, snapshot creation -/

/-- `stop_containers(app)`: `docker stop` on `app.containers[::-1]`. -/
def stop_containers (app : App) (st : St) : Result :=
  let p := runCmd (.dockerStop app.containers.reverse) st
  if p.1 ≠ 0 then
    .err ("Failed to stop " ++ app.name ++ " container(s)") p.2
  else .ok p.2

/-- `start_containers(app)`: `docker start` on `app.containers`. -/
def start_containers (app : App) (st : St) : Result :=
  let p := runCmd (.dockerStart app.containers) st
  if p.1 ≠ 0 then
    .err ("Failed to start " ++ app.name ++ " container(s)") p.2
  else .ok p.2

/-- The `for mount in app.mounts` loop of `snapshot_mounts`:
`zfs snapshot -r origin@backup` per mount, raising on failure. -/
def snapshot_mounts_loop (mounts : List Mount) (app_name : String)
    (st : St) : Result :=
  match mounts with
  | [] => .ok st
  | m :: rest =>
    let p := runCmd (.zfsSnapshot (.cur m.origin)) st
    if p.1 ≠ 0 then
      .err ("Failed to create " ++ app_name ++ " " ++ m.origin ++
        " snapshot") p.2
    else snapshot_mounts_loop rest app_name p.2

/-- `snapshot_mounts(app)`. -/
def snapshot_mounts (app : App) (st : St) : Result :=
  snapshot_mounts_loop app.mounts app.name st

/-- `do_snapshot(app, retention)`: archive, stop containers (only when the
list is non-empty), create snapshots, start containers (same guard). -/
def do_snapshot (app : App) (retention : Nat) (st : St) : Result :=
  (archive_snapshots app retention st).andThen fun st =>
  (if app.containers ≠ [] then stop_containers app st else .ok st).andThen
    fun st =>
  (snapshot_mounts app st).andThen fun st =>
  if app.containers ≠ [] then start_containers app st else .ok st

/-! ## Mount republication -/

/-- The `for child in mount.children` loop inside `unmount_mount`: unmount
each `destination/child` that is currently a mount point. -/
def unmount_children_loop (children : List String) (destination : String)
    (app_name : String) (st : St) : Result :=
  match children with
  | [] => .ok st
  | child :: rest =>
    let p := runCmd (.mountpointCheck (.sub destination child)) st
    if p.1 = 0 then
      let q := runCmd (.umountCmd (.sub destination child)) p.2
      if q.1 ≠ 0 then
        .err ("Failed to unmount " ++ app_name ++ " " ++ destination ++ "/" ++
          child ++ " snapshot") q.2
      else unmount_children_loop rest destination app_name q.2
    else unmount_children_loop rest destination app_name p.2

/-- `unmount_mount(mount, app_name)`: if `destination` is a mount point,
unmount every currently-mounted `destination/child`, then `destination`. -/
def unmount_mount (mount : Mount) (app_name : String) (st : St) : Result :=
  let p := runCmd (.mountpointCheck (.root mount.destination)) st
  if p.1 = 0 then
    (unmount_children_loop mount.children mount.destination app_name
        p.2).andThen fun st =>
      let q := runCmd (.umountCmd (.root mount.destination)) st
      if q.1 ≠ 0 then
        .err ("Failed to unmount " ++ app_name ++ " " ++ mount.destination ++
          " snapshot") q.2
      else .ok q.2
  else .ok p.2

/-- The `for child in mount.children` loop inside `mount_mount`: mount
`origin/child@backup` at `destination/child`. -/
def mount_children_loop (children : List String) (origin : String)
    (destination : String) (app_name : String) (st : St) : Result :=
  match children with
  | [] => .ok st
  | child :: rest =>
    let p := runCmd
      (.mountCmd (.cur (origin ++ "/" ++ child)) (.sub destination child)) st
    if p.1 ≠ 0 then
      .err ("Failed to mount " ++ app_name ++ " snapshot " ++ origin ++ "/" ++
        child ++ "@backup at " ++ destination ++ "/" ++ child) p.2
    else mount_children_loop rest origin destination app_name p.2

/-- `mount_mount(mount, app_name)`: `mkdir -p destination`, mount
`origin@backup` at `destination`, then mount each child. -/
def mount_mount (mount : Mount) (app_name : String) (st : St) : Result :=
  let p := runCmd (.mkdirCmd (.root mount.destination)) st
  if p.1 ≠ 0 then
    .err ("Failed to create " ++ app_name ++ " " ++ mount.destination ++
      " top-level directory") p.2
  else
    let q := runCmd (.mountCmd (.cur mount.origin) (.root mount.destination)) p.2
    if q.1 ≠ 0 then
      .err ("Failed to mount " ++ app_name ++ " snapshot " ++ mount.origin ++
        "@backup at " ++ mount.destination) q.2
    else mount_children_loop mount.children mount.origin mount.destination
      app_name q.2

/-- The `for mount in app.mounts` loop of `do_mount`: unmount then mount. -/
def do_mount_loop (mounts : List Mount) (app_name : String) (st : St) :
    Result :=
  match mounts with
  | [] => .ok st
  | m :: rest =>
    (unmount_mount m app_name st).andThen fun st =>
    (mount_mount m app_name st).andThen fun st =>
      do_mount_loop rest app_name st

/-- `do_mount(app)`. -/
def do_mount (app : App) (st : St) : Result :=
  do_mount_loop app.mounts app.name st

/-! ## Backup container group, notification, coordinator -/

/-- `stop_backup_containers(backup_containers)`. -/
def stop_backup_containers (backup_containers : List String) (st : St) :
    Result :=
  let p := runCmd (.dockerStop backup_containers.reverse) st
  if p.1 ≠ 0 then .err "Failed to stop backup container(s)" p.2
  else .ok p.2

/-- `start_backup_containers(backup_containers)`. -/
def start_backup_containers (backup_containers : List String) (st : St) :
    Result :=
  let p := runCmd (.dockerStart backup_containers) st
  if p.1 ≠ 0 then .err "Failed to start backup container(s)" p.2
  else .ok p.2

/-- `send_notification(monitor_url, status, message)`: issues the HTTP GET
and never raises (all transport failures are only logged). -/
def send_notification (monitor_url status msg : String) (st : St) : Result :=
  let p := runCmd (.notifyCmd monitor_url status msg) st
  .ok p.2

/-- The `for app in apps` loops of `snapshot_manager`, generic in the body. -/
def apps_loop (f : App → St → Result) (apps : List App) (st : St) : Result :=
  match apps with
  | [] => .ok st
  | a :: rest => (f a st).andThen fun st => apps_loop f rest st

/-- `snapshot_manager(retention, backup_containers, monitor_url, apps)`:
the coordinator for one backup cycle. -/
def snapshot_manager (retention : Nat) (backup_containers : List String)
    (monitor_url : Option String) (apps : List App) (st : St) : Result :=
  (match monitor_url with
   | some url => send_notification url "up" "start" st
   | none => .ok st).andThen fun st =>
  (apps_loop (fun app => do_snapshot app retention) apps st).andThen fun st =>
  (if backup_containers ≠ [] then stop_backup_containers backup_containers st
   else .ok st).andThen fun st =>
  (apps_loop do_mount apps st).andThen fun st =>
  (if backup_containers ≠ [] then start_backup_containers backup_containers st
   else .ok st).andThen fun st =>
  (apps_loop (fun app => remove_last_snapshot app retention) apps st).andThen
    fun st =>
  match monitor_url with
  | some url => send_notification url "up" "finish" st
  | none => .ok st

/-! ## Configuration reading and the CLI entry point -/

/-- `DEFAULT_RETENTION = 14`. -/
def DEFAULT_RETENTION : Nat := 14

/-- The relevant contents of the parsed TOML configuration file:
the `[config]` table's optional fields and the declared apps. -/
structure ConfigFile where
  retention : Option Nat
  backup_containers : Option (List String)
  monitor_url : Option String
  apps : List App
  deriving DecidableEq, Repr

/-- `read_config(config_path, input_retention, input_backup_containers,
input_monitor_url)`: each effective value is the run-time input if given,
else the file's value if declared, else the built-in default
(`DEFAULT_RETENTION`, `[]`, `None`). -/
def read_config (cf : ConfigFile) (input_retention : Option Nat)
    (input_backup_containers : Option (List String))
    (input_monitor_url : Option String) : Configuration :=
  { retention :=
      match input_retention with
      | some r => r
      | none =>
        match cf.retention with
        | some r => r
        | none => DEFAULT_RETENTION
    backup_containers :=
      match input_backup_containers with
      | some bc => bc
      | none =>
        match cf.backup_containers with
        | some bc => bc
        | none => []
    monitor_url :=
      match input_monitor_url with
      | some u => some u
      | none => cf.monitor_url
    apps := cf.apps }

/-- The parsed command-line arguments relevant to the run. -/
structure Args where
  configFile : ConfigFile
  retention : Option Nat
  backup_containers : Option (List String)
  monitor_url : Option String

/-- `snapshot_manager_main(args)`: reads the configuration — passing only
`args.config`, none of the parsed overrides — then runs `snapshot_manager`. -/
def snapshot_manager_main (args : Args) (st : St) : Result :=
  let config := read_config args.configFile none none none
  snapshot_manager config.retention config.backup_containers
    config.monitor_url config.apps st

/-- The configuration `snapshot_manager_main` actually runs with. -/
def snapshot_manager_main_config (args : Args) : Configuration :=
  read_config args.configFile none none none

/-- The `try/except Exception` block of `main()`: on an exception from
`snapshot_manager_main`, send a "down"/"exception" notification when
`args.monitor_url` is set, then re-raise. -/
def main_run (args : Args) (st : St) : Result :=
  match snapshot_manager_main args st with
  | .ok st => .ok st
  | .err e st =>
    match args.monitor_url with
    | some url => (send_notification url "down" "exception" st).andThen
        fun st => .err e st
    | none => .err e st

/-! ## Shared facts about the rotation engine -/

/-- The commands `rename_mount_snapshots_from` issues at loop counter `n`,
as a function of the snapshot set at loop entry (the loop never disturbs a
generation before checking it, so the entry set determines the trace). -/
def renameLoopTrace (o : String) : Nat → List SnapId → List Cmd
  | 0, _ => []
  | n + 1, S =>
    (if SnapId.gen o (n + 1) ∈ S then
      [Cmd.zfsList (.gen o (n + 1)),
       Cmd.zfsRename (.gen o (n + 1)) (.gen o (n + 2))]
     else [Cmd.zfsList (.gen o (n + 1))]) ++ renameLoopTrace o n S

lemma gen_ne_gen {o : String} {i j : Nat} (h : i ≠ j) :
    SnapId.gen o i ≠ SnapId.gen o j := by
  intro hh
  injection hh with h1 h2
  exact h h2

lemma cur_ne_gen {o o' : String} {j : Nat} : SnapId.cur o ≠ SnapId.gen o' j :=
  fun h => SnapId.noConfusion h

lemma renameLoopTrace_congr {o : String} {n : Nat} {S T : List SnapId}
    (h : ∀ j, 1 ≤ j → j ≤ n → (SnapId.gen o j ∈ S ↔ SnapId.gen o j ∈ T)) :
    renameLoopTrace o n S = renameLoopTrace o n T := by
  induction n with
  | zero => rfl
  | succ k ih =>
    have hk := h (k + 1) (by omega) (by omega)
    simp only [renameLoopTrace]
    rw [ih fun j h1 h2 => h j h1 (by omega)]
    by_cases hm : SnapId.gen o (k + 1) ∈ S
    · rw [if_pos hm, if_pos (hk.mp hm)]
    · rw [if_neg hm, if_neg fun hh => hm (hk.mpr hh)]

/-- Master characterization of the descending rename loop: with a fully
successful oracle, a duplicate-free snapshot set, and the slot above the
first processed index free, the loop succeeds, its trace is
`renameLoopTrace`, generations outside `1..n+1` (and every other name) are
untouched, slot `1` ends free, and each slot `2..n+1` ends holding what slot
`i-1` held at entry. -/
lemma rename_from_spec (m : Mount) (app : String) (n : Nat) (st : St)
    (hok : ∀ c, st.world.ok c = true)
    (hnd : st.world.snaps.Nodup)
    (htop : SnapId.gen m.origin (n + 1) ∉ st.world.snaps) :
    ∃ st', rename_mount_snapshots_from m app n st = .ok st' ∧
      st'.world.ok = st.world.ok ∧
      st'.world.mounted = st.world.mounted ∧
      st'.world.snaps.Nodup ∧
      st'.world.snaps.length = st.world.snaps.length ∧
      st'.trace = st.trace ++ renameLoopTrace m.origin n st.world.snaps ∧
      (∀ s : SnapId, (∀ i, 1 ≤ i → i ≤ n + 1 → s ≠ .gen m.origin i) →
        (s ∈ st'.world.snaps ↔ s ∈ st.world.snaps)) ∧
      SnapId.gen m.origin 1 ∉ st'.world.snaps ∧
      (∀ i, 2 ≤ i → i ≤ n + 1 →
        (SnapId.gen m.origin i ∈ st'.world.snaps ↔
         SnapId.gen m.origin (i - 1) ∈ st.world.snaps)) := by
  induction n generalizing st with
  | zero =>
    exact ⟨st, rfl, rfl, rfl, hnd, rfl, by simp [renameLoopTrace],
      fun s _ => Iff.rfl, htop, fun i h2 h1 => absurd h1 (by omega)⟩
  | succ k ih =>
    by_cases hmem : SnapId.gen m.origin (k + 1) ∈ st.world.snaps
    · -- the generation exists: it is renamed one slot up, then the loop
      -- continues at counter `k`
      have hne12 : SnapId.gen m.origin (k + 1) ≠ SnapId.gen m.origin (k + 2) :=
        gen_ne_gen (by omega)
      set S₁ : List SnapId :=
        st.world.snaps.erase (.gen m.origin (k + 1)) ++ [.gen m.origin (k + 2)]
        with hS₁
      have hstep : rename_mount_snapshots_from m app (k + 1) st =
          rename_mount_snapshots_from m app k
            { world := { st.world with snaps := S₁ },
              trace := st.trace ++ [.zfsList (.gen m.origin (k + 1)),
                .zfsRename (.gen m.origin (k + 1)) (.gen m.origin (k + 2))] } := by
        simp [rename_mount_snapshots_from, runCmd, exec, hmem, hok, htop, hS₁]
      have haux : ∀ s : SnapId, s ≠ .gen m.origin (k + 1) →
          s ≠ .gen m.origin (k + 2) → (s ∈ S₁ ↔ s ∈ st.world.snaps) := by
        intro s h1 h2
        simp [hS₁, List.mem_append, List.mem_erase_of_ne h1, h2]
      have hnd₁ : S₁.Nodup := by
        rw [hS₁, List.nodup_append]
        refine ⟨hnd.erase _, List.nodup_singleton _, ?_⟩
        simp only [List.disjoint_singleton]
        exact fun h => htop (List.mem_of_mem_erase h)
      have htop₁ : SnapId.gen m.origin (k + 1) ∉ S₁ := by
        rw [hS₁]
        simp only [List.mem_append, List.mem_singleton]
        rintro (h | h)
        · exact (hnd.mem_erase_iff.mp h).1 rfl
        · exact hne12 h
      obtain ⟨st', hrun, hok', hmnt', hnd', hlen', htr', hunt, hgen1, hshift⟩ :=
        ih { world := { st.world with snaps := S₁ },
             trace := st.trace ++ [.zfsList (.gen m.origin (k + 1)),
               .zfsRename (.gen m.origin (k + 1)) (.gen m.origin (k + 2))] }
          (fun c => hok c) hnd₁ htop₁
      simp only at hok' hmnt' hlen' htr' hunt hshift
      refine ⟨st', hstep.trans hrun, hok', hmnt', hnd', ?_, ?_, ?_, hgen1, ?_⟩
      · rw [hlen', hS₁]
        rw [List.length_append, List.length_erase_of_mem hmem,
          List.length_singleton]
        have : 0 < st.world.snaps.length := List.length_pos_of_mem hmem
        omega
      · rw [htr']
        have hcongr : renameLoopTrace m.origin k S₁ =
            renameLoopTrace m.origin k st.world.snaps := by
          apply renameLoopTrace_congr
          intro j hj1 hj2
          exact haux _ (gen_ne_gen (by omega)) (gen_ne_gen (by omega))
        rw [hcongr, List.append_assoc]
        simp only [renameLoopTrace, if_pos hmem]
      · intro s hs
        rw [hunt s fun i h1 h2 => hs i h1 (by omega)]
        exact haux s (hs (k + 1) (by omega) (by omega))
          (hs (k + 2) (by omega) (by omega))
      · intro i h2 hi
        rcases Nat.lt_or_ge i (k + 2) with hlt | hge
        · rw [hshift i h2 (by omega)]
          exact haux _ (gen_ne_gen (by omega)) (gen_ne_gen (by omega))
        · have hieq : i = k + 2 := by omega
          subst hieq
          have h1 : SnapId.gen m.origin (k + 2) ∈ S₁ := by
            rw [hS₁]; simp
          have h2' : SnapId.gen m.origin (k + 2) ∈ st'.world.snaps := by
            rw [hunt _ fun j hj1 hj2 => gen_ne_gen (by omega)]
            exact h1
          have hsub : k + 2 - 1 = k + 1 := by omega
          rw [hsub]
          exact ⟨fun _ => hmem, fun _ => h2'⟩
    · -- the generation is absent: only the existence check runs
      have hstep : rename_mount_snapshots_from m app (k + 1) st =
          rename_mount_snapshots_from m app k
            { world := st.world,
              trace := st.trace ++ [.zfsList (.gen m.origin (k + 1))] } := by
        simp [rename_mount_snapshots_from, runCmd, exec, hmem]
      obtain ⟨st', hrun, hok', hmnt', hnd', hlen', htr', hunt, hgen1, hshift⟩ :=
        ih { world := st.world,
             trace := st.trace ++ [.zfsList (.gen m.origin (k + 1))] }
          (fun c => hok c) hnd hmem
      simp only at hok' hmnt' hlen' htr' hunt hshift
      refine ⟨st', hstep.trans hrun, hok', hmnt', hnd', hlen', ?_, ?_, hgen1, ?_⟩
      · rw [htr', List.append_assoc]
        simp only [renameLoopTrace, if_neg hmem, List.singleton_append]
      · intro s hs
        exact hunt s fun i h1 h2 => hs i h1 (by omega)
      · intro i h2 hi
        rcases Nat.lt_or_ge i (k + 2) with hlt | hge
        · exact hshift i h2 (by omega)
        · have hieq : i = k + 2 := by omega
          subst hieq
          have h2' : SnapId.gen m.origin (k + 2) ∉ st'.world.snaps := by
            rw [hunt _ fun j hj1 hj2 => gen_ne_gen (by omega)]
            exact htop
          have hsub : k + 2 - 1 = k + 1 := by omega
          rw [hsub]
          exact ⟨fun h => absurd h h2', fun h => absurd h hmem⟩

/-- `remove_mount_last_snapshot` with a successful oracle: destroys
`origin@backup-R` exactly when it exists, never raises. -/
lemma remove_mount_last_spec (m : Mount) (app : String) (R : Nat) (st : St)
    (hok : ∀ c, st.world.ok c = true) :
    ∃ st', remove_mount_last_snapshot m app R st = .ok st' ∧
      st'.world.ok = st.world.ok ∧
      st'.world.mounted = st.world.mounted ∧
      st'.world.snaps = (if SnapId.gen m.origin R ∈ st.world.snaps then
        st.world.snaps.erase (.gen m.origin R) else st.world.snaps) ∧
      st'.trace = st.trace ++ (if SnapId.gen m.origin R ∈ st.world.snaps then
        [Cmd.zfsList (.gen m.origin R), Cmd.zfsDestroy (.gen m.origin R)]
        else [Cmd.zfsList (.gen m.origin R)]) := by
  by_cases hmem : SnapId.gen m.origin R ∈ st.world.snaps
  · refine ⟨{ world := { st.world with
                           snaps := st.world.snaps.erase (.gen m.origin R) },
              trace := st.trace ++ [Cmd.zfsList (.gen m.origin R),
                Cmd.zfsDestroy (.gen m.origin R)] }, ?_, rfl, rfl, ?_, ?_⟩
    · simp [remove_mount_last_snapshot, runCmd, exec, hmem, hok]
    · simp [hmem]
    · simp [hmem]
  · refine ⟨{ world := st.world,
              trace := st.trace ++ [Cmd.zfsList (.gen m.origin R)] },
      ?_, rfl, rfl, ?_, ?_⟩
    · simp [remove_mount_last_snapshot, runCmd, exec, hmem]
    · simp [hmem]
    · simp [hmem]

/-- `rename_mount_latest_snapshot` with a successful oracle and slot `1`
free: renames `origin@backup` to `origin@backup-1` exactly when the former
exists, never raises. -/
lemma rename_latest_spec (m : Mount) (app : String) (st : St)
    (hok : ∀ c, st.world.ok c = true)
    (hfree : SnapId.gen m.origin 1 ∉ st.world.snaps) :
    ∃ st', rename_mount_latest_snapshot m app st = .ok st' ∧
      st'.world.ok = st.world.ok ∧
      st'.world.mounted = st.world.mounted ∧
      st'.world.snaps = (if SnapId.cur m.origin ∈ st.world.snaps then
        st.world.snaps.erase (.cur m.origin) ++ [.gen m.origin 1]
        else st.world.snaps) ∧
      st'.trace = st.trace ++ (if SnapId.cur m.origin ∈ st.world.snaps then
        [Cmd.zfsList (.cur m.origin),
         Cmd.zfsRename (.cur m.origin) (.gen m.origin 1)]
        else [Cmd.zfsList (.cur m.origin)]) := by
  by_cases hmem : SnapId.cur m.origin ∈ st.world.snaps
  · refine ⟨{ world := { st.world with
                           snaps := st.world.snaps.erase (.cur m.origin) ++
                             [.gen m.origin 1] },
              trace := st.trace ++ [Cmd.zfsList (.cur m.origin),
                Cmd.zfsRename (.cur m.origin) (.gen m.origin 1)] },
      ?_, rfl, rfl, ?_, ?_⟩
    · simp [rename_mount_latest_snapshot, runCmd, exec, hmem, hok, hfree]
    · simp [hmem]
    · simp [hmem]
  · refine ⟨{ world := st.world,
              trace := st.trace ++ [Cmd.zfsList (.cur m.origin)] },
      ?_, rfl, rfl, ?_, ?_⟩
    · simp [rename_mount_latest_snapshot, runCmd, exec, hmem]
    · simp [hmem]
    · simp [hmem]

/-- The commands one `archive_snapshots` loop iteration issues for a mount
with origin `o`, as a function of the initial snapshot set. -/
def archiveTrace (o : String) (R : Nat) (S : List SnapId) : List Cmd :=
  (if SnapId.gen o R ∈ S then
    [Cmd.zfsList (.gen o R), Cmd.zfsDestroy (.gen o R)]
   else [Cmd.zfsList (.gen o R)]) ++
  renameLoopTrace o (R - 1) S ++
  (if SnapId.cur o ∈ S then
    [Cmd.zfsList (.cur o), Cmd.zfsRename (.cur o) (.gen o 1)]
   else [Cmd.zfsList (.cur o)])

/-- Master characterization of one archive pass over a mount, with a fully
successful oracle and a duplicate-free snapshot set: it succeeds, the trace
is `archiveTrace`, snapshots of other names are untouched, `origin@backup`
ends absent, slot `1` ends holding the former current snapshot, slot `i`
(`2 ≤ i ≤ R`) ends holding the former slot `i-1`, and exactly the guarded
destroy of `origin@backup-R` shrinks the set. -/
lemma archive_mount_spec (m : Mount) (app : String) (R : Nat) (st : St)
    (hok : ∀ c, st.world.ok c = true)
    (hnd : st.world.snaps.Nodup)
    (hR : 1 ≤ R) :
    ∃ st', archive_mount m app R st = .ok st' ∧
      st'.world.ok = st.world.ok ∧
      st'.world.mounted = st.world.mounted ∧
      st'.world.snaps.Nodup ∧
      st'.world.snaps.length = st.world.snaps.length -
        (if SnapId.gen m.origin R ∈ st.world.snaps then 1 else 0) ∧
      st'.trace = st.trace ++ archiveTrace m.origin R st.world.snaps ∧
      (∀ s : SnapId, (∀ i, 1 ≤ i → i ≤ R → s ≠ .gen m.origin i) →
        s ≠ .cur m.origin → (s ∈ st'.world.snaps ↔ s ∈ st.world.snaps)) ∧
      SnapId.cur m.origin ∉ st'.world.snaps ∧
      (SnapId.gen m.origin 1 ∈ st'.world.snaps ↔
        SnapId.cur m.origin ∈ st.world.snaps) ∧
      (∀ i, 2 ≤ i → i ≤ R →
        (SnapId.gen m.origin i ∈ st'.world.snaps ↔
         SnapId.gen m.origin (i - 1) ∈ st.world.snaps)) := by
  have hR1 : R - 1 + 1 = R := by omega
  obtain ⟨st₁, hrun1, hok1, hmnt1, hsnap1, htr1⟩ :=
    remove_mount_last_spec m app R st hok
  have hok1' : ∀ c, st₁.world.ok c = true := fun c => by
    rw [hok1]; exact hok c
  have hnd1 : st₁.world.snaps.Nodup := by
    rw [hsnap1]; split
    · exact hnd.erase _
    · exact hnd
  have hmem1 : ∀ s : SnapId, s ≠ .gen m.origin R →
      (s ∈ st₁.world.snaps ↔ s ∈ st.world.snaps) := by
    intro s hs
    rw [hsnap1]; split
    · exact List.mem_erase_of_ne hs
    · exact Iff.rfl
  have hgenR1 : SnapId.gen m.origin R ∉ st₁.world.snaps := by
    rw [hsnap1]; split
    · exact fun h => (hnd.mem_erase_iff.mp h).1 rfl
    · assumption
  have hlen1 : st₁.world.snaps.length = st.world.snaps.length -
      (if SnapId.gen m.origin R ∈ st.world.snaps then 1 else 0) := by
    rw [hsnap1]
    by_cases hm : SnapId.gen m.origin R ∈ st.world.snaps
    · rw [if_pos hm, if_pos hm, List.length_erase_of_mem hm]
    · rw [if_neg hm, if_neg hm]
      omega
  have htopl : SnapId.gen m.origin (R - 1 + 1) ∉ st₁.world.snaps := by
    rw [hR1]; exact hgenR1
  obtain ⟨st₂, hrun2, hok2, hmnt2, hnd2, hlen2, htr2, hunt, hgen1l, hshift⟩ :=
    rename_from_spec m app (R - 1) st₁ hok1' hnd1 htopl
  rw [hR1] at hunt hshift
  have hok2' : ∀ c, st₂.world.ok c = true := fun c => by
    rw [hok2]; exact hok1' c
  have hcur2 : SnapId.cur m.origin ∈ st₂.world.snaps ↔
      SnapId.cur m.origin ∈ st.world.snaps :=
    (hunt _ fun i h1 h2 => cur_ne_gen).trans (hmem1 _ cur_ne_gen)
  obtain ⟨st₃, hrun3, hok3, hmnt3, hsnap3, htr3⟩ :=
    rename_latest_spec m app st₂ hok2' hgen1l
  have hwhole : archive_mount m app R st = .ok st₃ := by
    simp only [archive_mount, hrun1, Result.andThen, rename_mount_snapshots,
      hrun2, hrun3]
  have hmem3 : ∀ s : SnapId, s ≠ .cur m.origin → s ≠ .gen m.origin 1 →
      (s ∈ st₃.world.snaps ↔ s ∈ st₂.world.snaps) := by
    intro s h1 h2
    rw [hsnap3]; split
    · simp [List.mem_append, List.mem_erase_of_ne h1, h2]
    · exact Iff.rfl
  refine ⟨st₃, hwhole, by rw [hok3, hok2, hok1],
    by rw [hmnt3, hmnt2, hmnt1], ?_, ?_, ?_, ?_, ?_, ?_, ?_⟩
  · -- Nodup
    rw [hsnap3]; split
    · rw [List.nodup_append]
      refine ⟨hnd2.erase _, List.nodup_singleton _, ?_⟩
      simp only [List.disjoint_singleton]
      exact fun h => hgen1l (List.mem_of_mem_erase h)
    · exact hnd2
  · -- length
    rw [hsnap3]
    split
    · next hc =>
      rw [List.length_append, List.length_erase_of_mem hc,
        List.length_singleton]
      have hpos : 0 < st₂.world.snaps.length := List.length_pos_of_mem hc
      omega
    · next hc => rw [hlen2, hlen1]
  · -- trace
    have hcongr : renameLoopTrace m.origin (R - 1) st₁.world.snaps =
        renameLoopTrace m.origin (R - 1) st.world.snaps :=
      renameLoopTrace_congr fun j hj1 hj2 => hmem1 _ (gen_ne_gen (by omega))
    rw [htr3, htr2, htr1, hcongr]
    simp only [hcur2, archiveTrace, List.append_assoc]
  · -- names outside the rotated range are untouched
    intro s hs hcur
    rw [hmem3 s hcur (hs 1 (by omega) hR), hunt s fun i h1 h2 => hs i h1 h2]
    exact hmem1 s (hs R hR (le_refl R))
  · -- the current snapshot name ends absent
    rw [hsnap3]
    split
    · next hc =>
      simp only [List.mem_append, List.mem_singleton]
      rintro (h | h)
      · exact (hnd2.mem_erase_iff.mp h).1 rfl
      · exact cur_ne_gen h
    · next hc => exact fun h => hc h
  · -- slot 1 ends holding the former current snapshot
    rw [hsnap3]
    split
    · next hc =>
      simp only [List.mem_append, List.mem_singleton]
      exact ⟨fun _ => hcur2.mp hc, fun _ => Or.inr (by simp)⟩
    · next hc =>
      exact ⟨fun h => absurd h hgen1l, fun h => absurd (hcur2.mpr h) hc⟩
  · -- slots 2..R shift up by one
    intro i h2 hi
    rw [hmem3 _ (Ne.symm cur_ne_gen) (gen_ne_gen (by omega)),
      hshift i h2 hi]
    exact hmem1 _ (gen_ne_gen (by omega))

/-- `snapshot_mounts` on a single-mount app with a successful oracle and the
current snapshot name free: creates `origin@backup`. -/
lemma snapshot_mounts_single_spec (m : Mount) (a : App) (st : St)
    (hm : a.mounts = [m])
    (hok : ∀ c, st.world.ok c = true)
    (hfree : SnapId.cur m.origin ∉ st.world.snaps) :
    snapshot_mounts a st = .ok
      { world := { st.world with snaps := st.world.snaps ++ [.cur m.origin] },
        trace := st.trace ++ [.zfsSnapshot (.cur m.origin)] } := by
  simp [snapshot_mounts, hm, snapshot_mounts_loop, runCmd, exec, hok, hfree]

/-- The per-cycle snapshot effect, as §8 of the spec describes a cycle:
archive, create, prune, restricted to one app. -/
def backupCycle (a : App) (R : Nat) (st : St) : Result :=
  (archive_snapshots a R st).andThen fun st =>
  (snapshot_mounts a st).andThen fun st =>
  remove_last_snapshot a R st

/-- `k` consecutive backup cycles. -/
def iterCycles (a : App) (R : Nat) : Nat → St → Result
  | 0, st => .ok st
  | k + 1, st => (backupCycle a R st).andThen fun st => iterCycles a R k st

/-- One archive pass on a mount whose snapshot set holds the current
snapshot (when `hc`) plus archived generations `1..j`: afterwards the set
holds exactly generations `1..j+1` (or nothing when there was no current
snapshot and no generation). -/
lemma archive_single_desc (m : Mount) (nm : String) (R j : Nat) (hc : Bool)
    (st : St)
    (hok : ∀ c, st.world.ok c = true)
    (hnd : st.world.snaps.Nodup)
    (hR : 1 ≤ R) (hj : j + 1 ≤ R)
    (hcj : hc = false → j = 0)
    (hdesc : ∀ s : SnapId, s ∈ st.world.snaps ↔
      ((hc = true ∧ s = .cur m.origin) ∨
        ∃ i, 1 ≤ i ∧ i ≤ j ∧ s = .gen m.origin i)) :
    ∃ st', archive_mount m nm R st = .ok st' ∧
      st'.world.ok = st.world.ok ∧
      st'.world.mounted = st.world.mounted ∧
      st'.world.snaps.Nodup ∧
      SnapId.cur m.origin ∉ st'.world.snaps ∧
      (∀ s : SnapId, s ∈ st'.world.snaps ↔
        ∃ i, 1 ≤ i ∧ i ≤ (if hc = true then j + 1 else 0) ∧
          s = .gen m.origin i) := by
  obtain ⟨st₁, hrun1, hok1, hmnt1, hnd1, hlen1, htr1, hunt, hcur1, hgen11,
    hshift⟩ := archive_mount_spec m nm R st hok hnd hR
  have hcurS : SnapId.cur m.origin ∈ st.world.snaps ↔ hc = true := by
    constructor
    · intro h
      rcases (hdesc _).mp h with ⟨hh, _⟩ | ⟨i, _, _, h'⟩
      · exact hh
      · exact absurd h' cur_ne_gen
    · intro h
      exact (hdesc _).mpr (Or.inl ⟨h, rfl⟩)
  -- membership in the archived state
  have hdesc1 : ∀ s : SnapId, s ∈ st₁.world.snaps ↔
      ∃ i, 1 ≤ i ∧ i ≤ (if hc = true then j + 1 else 0) ∧
        s = .gen m.origin i := by
    intro s
    constructor
    · intro h
      cases s with
      | cur o' =>
        exfalso
        by_cases ho : o' = m.origin
        · subst ho; exact hcur1 h
        · have hne : SnapId.cur o' ≠ SnapId.cur m.origin := by
            intro hh; injection hh with hh'; exact ho hh'
          have hS := (hunt _ (fun i _ _ => cur_ne_gen) hne).mp h
          rcases (hdesc _).mp hS with ⟨_, h'⟩ | ⟨i, _, _, h'⟩
          · exact hne h'
          · exact cur_ne_gen h'
      | gen o' i =>
        by_cases ho : o' = m.origin
        · subst ho
          by_cases h1 : i = 1
          · subst h1
            have hcS := hcurS.mp (hgen11.mp h)
            refine ⟨1, le_refl 1, ?_, rfl⟩
            rw [if_pos hcS]
            omega
          · by_cases hge : 2 ≤ i ∧ i ≤ R
            · have hS := (hshift i hge.1 hge.2).mp h
              rcases (hdesc _).mp hS with ⟨_, h'⟩ | ⟨i', hi'1, hi'2, h'⟩
              · exact absurd h'.symm cur_ne_gen
              · have hii : i - 1 = i' := (SnapId.gen.inj h').2
                cases hc with
                | false =>
                  have hj0 : j = 0 := hcj rfl
                  exact absurd hi'1 (by omega)
                | true =>
                  refine ⟨i, by omega, ?_, rfl⟩
                  rw [if_pos rfl]
                  omega
            · -- i = 0 or i > R: untouched, hence impossible
              exfalso
              have hne : ∀ i', 1 ≤ i' → i' ≤ R →
                  SnapId.gen m.origin i ≠ SnapId.gen m.origin i' := by
                intro i' hi'1 hi'2
                exact gen_ne_gen (by omega)
              have hS := (hunt _ hne (Ne.symm cur_ne_gen)).mp h
              rcases (hdesc _).mp hS with ⟨_, h'⟩ | ⟨i', hi'1, hi'2, h'⟩
              · exact absurd h'.symm cur_ne_gen
              · have hii : i = i' := (SnapId.gen.inj h').2
                have hir : 1 ≤ i ∧ i ≤ R := by omega
                exact hne i hir.1 hir.2 (by rw [hii])
        · have hne : ∀ i', 1 ≤ i' → i' ≤ R →
              SnapId.gen o' i ≠ SnapId.gen m.origin i' :=
            fun i' _ _ hh => ho (SnapId.gen.inj hh).1
          have hS := (hunt _ hne
            fun hh => SnapId.noConfusion hh).mp h
          exfalso
          rcases (hdesc _).mp hS with ⟨_, h'⟩ | ⟨i', hi'1, hi'2, h'⟩
          · exact SnapId.noConfusion h'
          · exact ho (SnapId.gen.inj h').1
    · rintro ⟨i, hi1, hib, rfl⟩
      cases hc with
      | false => rw [if_neg (by simp)] at hib; omega
      | true =>
        rw [if_pos rfl] at hib
        by_cases h1 : i = 1
        · subst h1
          exact hgen11.mpr (hcurS.mpr rfl)
        · refine (hshift i (by omega) (by omega)).mpr ?_
          exact (hdesc _).mpr (Or.inr ⟨i - 1, by omega, by omega, rfl⟩)
  exact ⟨st₁, hrun1, hok1, hmnt1, hnd1, hcur1, hdesc1⟩

/-- One cycle on a single-mount app, from a state holding the current
snapshot (when `hc`) plus archived generations `1..j` (`j = 0` when no
current snapshot exists yet): afterwards the state holds exactly the fresh
current snapshot plus generations `1..min (j+1) (R-1)` (the prune destroys
`backup-R` when the shift filled it), or just the current snapshot if there
was nothing to rotate. -/
lemma backupCycle_spec (m : Mount) (a : App) (R j : Nat) (hc : Bool) (st : St)
    (hm : a.mounts = [m])
    (hok : ∀ c, st.world.ok c = true)
    (hnd : st.world.snaps.Nodup)
    (hR : 1 ≤ R) (hj : j + 1 ≤ R)
    (hcj : hc = false → j = 0)
    (hdesc : ∀ s : SnapId, s ∈ st.world.snaps ↔
      ((hc = true ∧ s = .cur m.origin) ∨
        ∃ i, 1 ≤ i ∧ i ≤ j ∧ s = .gen m.origin i)) :
    ∃ st', backupCycle a R st = .ok st' ∧
      st'.world.ok = st.world.ok ∧
      st'.world.mounted = st.world.mounted ∧
      st'.world.snaps.Nodup ∧
      (∀ s : SnapId, s ∈ st'.world.snaps ↔
        (s = .cur m.origin ∨
          ∃ i, 1 ≤ i ∧ i ≤ (if hc = true then min (j + 1) (R - 1) else 0) ∧
            s = .gen m.origin i)) := by
  obtain ⟨st₁, hrun1, hok1, hmnt1, hnd1, hcur1, hdesc1⟩ :=
    archive_single_desc m a.name R j hc st hok hnd hR hj hcj hdesc
  have hok1' : ∀ c, st₁.world.ok c = true := fun c => by rw [hok1]; exact hok c
  -- create the fresh current snapshot
  have hrun2 := snapshot_mounts_single_spec m a st₁ hm hok1' hcur1
  have hnd2 : (st₁.world.snaps ++ [SnapId.cur m.origin]).Nodup := by
    rw [List.nodup_append]
    exact ⟨hnd1, List.nodup_singleton _, by
      simp only [List.disjoint_singleton]; exact hcur1⟩
  have hdesc2 : ∀ s : SnapId,
      s ∈ st₁.world.snaps ++ [SnapId.cur m.origin] ↔
      (s = .cur m.origin ∨
        ∃ i, 1 ≤ i ∧ i ≤ (if hc = true then j + 1 else 0) ∧
          s = .gen m.origin i) := by
    intro s
    rw [List.mem_append, List.mem_singleton, hdesc1 s]
    exact Or.comm
  have hgenR2 : SnapId.gen m.origin R ∈
      st₁.world.snaps ++ [SnapId.cur m.origin] ↔ (hc = true ∧ j + 1 = R) := by
    rw [hdesc2]
    constructor
    · rintro (h | ⟨i, hi1, hib, h⟩)
      · exact SnapId.noConfusion h
      · have hiR : R = i := (SnapId.gen.inj h).2
        cases hc with
        | false =>
          rw [if_neg (by simp)] at hib
          omega
        | true =>
          rw [if_pos rfl] at hib
          exact ⟨rfl, by omega⟩
    · rintro ⟨hhc, hjR⟩
      refine Or.inr ⟨R, by omega, ?_, rfl⟩
      rw [if_pos hhc]
      omega
  -- prune: guarded destroy of backup-R
  obtain ⟨st₃, hrun3, hok3, hmnt3, hsnap3, htr3⟩ :=
    remove_mount_last_spec m a.name R
      { world := { st₁.world with
                     snaps := st₁.world.snaps ++ [.cur m.origin] },
        trace := st₁.trace ++ [.zfsSnapshot (.cur m.origin)] }
      (fun c => hok1' c)
  simp only at hok3 hmnt3 hsnap3 htr3
  have hcomp : backupCycle a R st = .ok st₃ := by
    simp only [backupCycle, archive_snapshots, hm, archive_snapshots_loop,
      hrun1, Result.andThen, hrun2, remove_last_snapshot,
      remove_last_snapshot_loop, hrun3]
  refine ⟨st₃, hcomp, by rw [hok3, hok1], by rw [hmnt3, hmnt1], ?_, ?_⟩
  · -- Nodup
    rw [hsnap3]
    split
    · exact hnd2.erase _
    · exact hnd2
  · -- final membership
    intro s
    rw [hsnap3]
    by_cases hgR : SnapId.gen m.origin R ∈
        st₁.world.snaps ++ [SnapId.cur m.origin]
    · rw [if_pos hgR, hnd2.mem_erase_iff, hdesc2 s]
      obtain ⟨hhc, hjR⟩ := hgenR2.mp hgR
      rw [if_pos hhc, if_pos hhc]
      constructor
      · rintro ⟨hne, h | ⟨i, hi1, hib, rfl⟩⟩
        · exact Or.inl h
        · have hiR : i ≠ R := fun hh => hne (by rw [hh])
          exact Or.inr ⟨i, hi1, by omega, rfl⟩
      · rintro (h | ⟨i, hi1, hib, rfl⟩)
        · exact ⟨by rw [h]; exact fun hh => SnapId.noConfusion hh, Or.inl h⟩
        · exact ⟨gen_ne_gen (by omega), Or.inr ⟨i, hi1, by omega, rfl⟩⟩
    · rw [if_neg hgR, hdesc2 s]
      have hnb : ¬(hc = true ∧ j + 1 = R) := fun hh => hgR (hgenR2.mpr hh)
      have hbeq : (if hc = true then min (j + 1) (R - 1) else 0) =
          (if hc = true then j + 1 else 0) := by
        cases hc with
        | false => simp
        | true =>
          rw [if_pos rfl, if_pos rfl]
          have hne : j + 1 ≠ R := fun hh => hnb ⟨rfl, hh⟩
          omega
      rw [hbeq]

/-- Iterating cycles from a state holding the current snapshot plus
generations `1..j`: after `k` further cycles the state holds the current
snapshot plus generations `1..min (j+k) (R-1)`. -/
lemma iterCycles_spec (m : Mount) (a : App) (R : Nat) (hm : a.mounts = [m])
    (hR : 1 ≤ R) :
    ∀ (k j : Nat) (st : St), j ≤ R - 1 →
    (∀ c, st.world.ok c = true) →
    st.world.snaps.Nodup →
    (∀ s : SnapId, s ∈ st.world.snaps ↔
      (s = .cur m.origin ∨ ∃ i, 1 ≤ i ∧ i ≤ j ∧ s = .gen m.origin i)) →
    ∃ st', iterCycles a R k st = .ok st' ∧
      st'.world.ok = st.world.ok ∧
      st'.world.mounted = st.world.mounted ∧
      st'.world.snaps.Nodup ∧
      (∀ s : SnapId, s ∈ st'.world.snaps ↔
        (s = .cur m.origin ∨
          ∃ i, 1 ≤ i ∧ i ≤ min (j + k) (R - 1) ∧ s = .gen m.origin i)) := by
  intro k
  induction k with
  | zero =>
    intro j st hjR hok hnd hdesc
    refine ⟨st, rfl, rfl, rfl, hnd, ?_⟩
    have hmeq : min (j + 0) (R - 1) = j := by omega
    rw [hmeq]
    exact hdesc
  | succ k ih =>
    intro j st hjR hok hnd hdesc
    obtain ⟨st₁, hrun1, hok1, hmnt1, hnd1, hdesc1⟩ :=
      backupCycle_spec m a R j true st hm hok hnd hR (by omega)
        (fun h => Bool.noConfusion h)
        (fun s => (hdesc s).trans
          ⟨fun h => h.imp (fun hh => ⟨rfl, hh⟩) id,
           fun h => h.imp And.right id⟩)
    have hok1' : ∀ c, st₁.world.ok c = true := fun c => by
      rw [hok1]; exact hok c
    obtain ⟨st', hrun', hok', hmnt', hnd', hdesc'⟩ :=
      ih (min (j + 1) (R - 1)) st₁ (by omega) hok1' hnd1 hdesc1
    have hcomp : iterCycles a R (k + 1) st = iterCycles a R k st₁ := by
      simp only [iterCycles, hrun1, Result.andThen]
    refine ⟨st', hcomp.trans hrun', by rw [hok', hok1],
      by rw [hmnt', hmnt1], hnd', ?_⟩
    have hmeq : min (min (j + 1) (R - 1) + k) (R - 1) =
        min (j + (k + 1)) (R - 1) := by omega
    rw [hmeq] at hdesc'
    exact hdesc'

/-- Transient peak bound: after a cycle's archive and create steps, before
its prune, the state holds at most the current snapshot plus generations
`1..R`. -/
lemma archiveCreate_peak (m : Mount) (a : App) (R j : Nat) (hc : Bool)
    (st : St)
    (hm : a.mounts = [m])
    (hok : ∀ c, st.world.ok c = true)
    (hnd : st.world.snaps.Nodup)
    (hR : 1 ≤ R) (hj : j + 1 ≤ R)
    (hcj : hc = false → j = 0)
    (hdesc : ∀ s : SnapId, s ∈ st.world.snaps ↔
      ((hc = true ∧ s = .cur m.origin) ∨
        ∃ i, 1 ≤ i ∧ i ≤ j ∧ s = .gen m.origin i)) :
    ∃ st', ((archive_snapshots a R st).andThen fun st =>
        snapshot_mounts a st) = .ok st' ∧
      (∀ s : SnapId, s ∈ st'.world.snaps →
        (s = .cur m.origin ∨ ∃ i, 1 ≤ i ∧ i ≤ R ∧ s = .gen m.origin i)) := by
  obtain ⟨st₁, hrun1, hok1, hmnt1, hnd1, hcur1, hdesc1⟩ :=
    archive_single_desc m a.name R j hc st hok hnd hR hj hcj hdesc
  have hok1' : ∀ c, st₁.world.ok c = true := fun c => by
    rw [hok1]; exact hok c
  have hrun2 := snapshot_mounts_single_spec m a st₁ hm hok1' hcur1
  refine ⟨{ world := { st₁.world with
                         snaps := st₁.world.snaps ++ [.cur m.origin] },
            trace := st₁.trace ++ [.zfsSnapshot (.cur m.origin)] }, ?_, ?_⟩
  · simp only [archive_snapshots, hm, archive_snapshots_loop, hrun1,
      Result.andThen, hrun2]
  · intro s hs
    simp only [List.mem_append, List.mem_singleton] at hs
    rcases hs with hs | hs
    · rcases (hdesc1 s).mp hs with ⟨i, hi1, hib, rfl⟩
      refine Or.inr ⟨i, hi1, ?_, rfl⟩
      cases hc with
      | false => rw [if_neg (by simp)] at hib; omega
      | true => rw [if_pos rfl] at hib; omega
    · exact Or.inl hs

/-! ## Concrete fixtures used by witnesses and counterexamples -/

/-- An oracle under which every external command succeeds. -/
def okAll : Cmd → Bool := fun _ => true

def mountBlog : Mount :=
  { origin := "tank/blog", destination := "/mnt/blog", children := [] }

def appBlog : App :=
  { name := "blog", containers := [], mounts := [mountBlog] }

def stBlog : St :=
  { world := { snaps := [.cur "tank/blog", .gen "tank/blog" 1],
               mounted := [],
               ok := okAll },
    trace := [] }

def mountO : Mount := { origin := "o", destination := "/mnt/o", children := [] }

def stO : St :=
  { world := { snaps := [.cur "o"], mounted := [], ok := okAll },
    trace := [] }

def stEmpty : St :=
  { world := { snaps := [], mounted := [], ok := okAll },
    trace := [] }

def appWeb : App :=
  { name := "web", containers := ["w1", "w2"], mounts := [mountBlog] }

def stRun : St :=
  { world := { snaps := [], mounted := [], ok := okAll },
    trace := [] }

/-- Two archive passes in a row with no snapshot creation in between. -/
def archiveTwice (m : Mount) (nm : String) (R : Nat) (st : St) : Result :=
  (archive_mount m nm R st).andThen fun st => archive_mount m nm R st

/-! ## Claim C1 -/

/-- **C1**: for every mount, app name and retention `R ≥ 1`, from any
duplicate-free snapshot state with all external commands succeeding, one
archive pass performs exactly, in strict order: (1) the existence-guarded
destroy of `origin@backup-R`; (2) for `i = R-1` down to `1` the
existence-guarded rename of `origin@backup-i` to `origin@backup-(i+1)`;
(3) the existence-guarded rename of `origin@backup` to `origin@backup-1` —
absent generations are silently skipped and nothing else is executed
(`archiveTrace` is by definition this guarded command sequence). -/
theorem c1_archive_steps (mount : Mount) (app_name : String) (R : Nat)
    (st : St)
    (hok : ∀ c, st.world.ok c = true)
    (hnd : st.world.snaps.Nodup)
    (hR : 1 ≤ R) :
    ∃ st', archive_mount mount app_name R st = .ok st' ∧
      st'.trace = st.trace ++ archiveTrace mount.origin R st.world.snaps := by
  obtain ⟨st', h1, _, _, _, _, h6, _, _, _, _⟩ :=
    archive_mount_spec mount app_name R st hok hnd hR
  exact ⟨st', h1, h6⟩

theorem c1_archive_steps_witness :
    ∃ st', archive_mount mountBlog "blog" 2 stBlog = .ok st' ∧
      st'.trace = stBlog.trace ++
        archiveTrace mountBlog.origin 2 stBlog.world.snaps :=
  c1_archive_steps mountBlog "blog" 2 stBlog (fun c => rfl) (by decide)
    (by decide)

/-! ## Claim C3 -/

/-- **C3 counterexample**: with retention 1 and only `o@backup` present, a
single archive pass keeps one snapshot (`o@backup-1`, zero generations
lost), but the second of two consecutive archive passes destroys it too
(its pre-emptive destroy of slot `R`), leaving nothing: the double
invocation loses strictly more generations than a single invocation from
the same starting state, contrary to the claim. -/
theorem c3_counterexample :
    archive_mount mountO "app" 1 stO =
      .ok ((archive_mount mountO "app" 1 stO).state) ∧
    ((archive_mount mountO "app" 1 stO).state).world.snaps =
      [.gen "o" 1] ∧
    archiveTwice mountO "app" 1 stO =
      .ok ((archiveTwice mountO "app" 1 stO).state) ∧
    ((archiveTwice mountO "app" 1 stO).state).world.snaps = [] :=
  ⟨rfl, rfl, rfl, rfl⟩

/-- **C3 amended**: invoking archive twice in a row with no intervening
create never errors (every step stays existence-guarded), and the second
pass loses at most one generation beyond the single pass — the guarded
destroy of the oldest slot: the snapshot count after two passes is never
larger, and at most one smaller, than after one pass. -/
theorem c3_archive_twice (m : Mount) (nm : String) (R : Nat) (st : St)
    (hok : ∀ c, st.world.ok c = true)
    (hnd : st.world.snaps.Nodup)
    (hR : 1 ≤ R) :
    ∃ st₁ st₂, archive_mount m nm R st = .ok st₁ ∧
      archive_mount m nm R st₁ = .ok st₂ ∧
      archiveTwice m nm R st = .ok st₂ ∧
      st₁.world.snaps.length ≤ st.world.snaps.length ∧
      st₂.world.snaps.length ≤ st₁.world.snaps.length ∧
      st₁.world.snaps.length - 1 ≤ st₂.world.snaps.length := by
  obtain ⟨st₁, h1, hok1, _, hnd1, hlen1, _, _, _, _, _⟩ :=
    archive_mount_spec m nm R st hok hnd hR
  obtain ⟨st₂, h2, _, _, _, hlen2, _, _, _, _, _⟩ :=
    archive_mount_spec m nm R st₁ (fun c => by rw [hok1]; exact hok c) hnd1 hR
  refine ⟨st₁, st₂, h1, h2, ?_, ?_, ?_, ?_⟩
  · simp only [archiveTwice, h1, Result.andThen, h2]
  · rw [hlen1]
    split <;> omega
  · rw [hlen2]
    split <;> omega
  · rw [hlen2]
    split <;> omega

theorem c3_archive_twice_witness :
    ∃ st₁ st₂, archive_mount mountO "app" 1 stO = .ok st₁ ∧
      archive_mount mountO "app" 1 st₁ = .ok st₂ ∧
      archiveTwice mountO "app" 1 stO = .ok st₂ ∧
      st₁.world.snaps.length ≤ stO.world.snaps.length ∧
      st₂.world.snaps.length ≤ st₁.world.snaps.length ∧
      st₁.world.snaps.length - 1 ≤ st₂.world.snaps.length :=
  c3_archive_twice mountO "app" 1 stO (fun c => rfl) (by decide) (by decide)

/-! ## Claim C2 -/

/-- **C2 counterexample**: retention 1, one mount, two successful cycles
(`archive`, create, prune) starting from no snapshots: the claim demands
exactly `backup-1..backup-R` plus `backup`, i.e. both `tank/blog@backup` and
`tank/blog@backup-1`, but each cycle's closing prune destroys
`backup-retention`, leaving only `tank/blog@backup`. -/
theorem c2_counterexample :
    iterCycles appBlog 1 2 stEmpty =
      .ok ((iterCycles appBlog 1 2 stEmpty).state) ∧
    ((iterCycles appBlog 1 2 stEmpty).state).world.snaps =
      [.cur "tank/blog"] ∧
    SnapId.gen "tank/blog" 1 ∉
      ((iterCycles appBlog 1 2 stEmpty).state).world.snaps :=
  ⟨rfl, rfl, by decide⟩

/-- **C2 amended**: for every retention `R ≥ 1` and a single-mount app
starting with no snapshots (all external commands succeeding), after `R+1`
successful cycles exactly the current `backup` plus the `R-1` archived
generations `backup-1..backup-(R-1)` exist — `backup-R` is destroyed by each
cycle's closing prune, so it is absent at every cycle boundary; after every
completed cycle at most the current `backup` plus `backup-1..backup-(R-1)`
exist, and even at the transient peak inside a cycle (after archive and
create, before prune) no more than the current `backup` plus
`backup-1..backup-R` exist. -/
theorem c2_retention_cycles (m : Mount) (a : App) (R : Nat) (st : St)
    (hm : a.mounts = [m])
    (hok : ∀ c, st.world.ok c = true)
    (hempty : st.world.snaps = [])
    (hR : 1 ≤ R) :
    (∃ st', iterCycles a R (R + 1) st = .ok st' ∧
      (∀ s : SnapId, s ∈ st'.world.snaps ↔
        (s = .cur m.origin ∨
          ∃ i, 1 ≤ i ∧ i ≤ R - 1 ∧ s = .gen m.origin i)) ∧
      SnapId.gen m.origin R ∉ st'.world.snaps) ∧
    (∀ k, k ≤ R + 1 → ∃ stk, iterCycles a R k st = .ok stk ∧
      ∀ s : SnapId, s ∈ stk.world.snaps →
        (s = .cur m.origin ∨
          ∃ i, 1 ≤ i ∧ i ≤ R - 1 ∧ s = .gen m.origin i)) ∧
    (∀ k, k ≤ R → ∃ stk stp, iterCycles a R k st = .ok stk ∧
      ((archive_snapshots a R stk).andThen fun st =>
        snapshot_mounts a st) = .ok stp ∧
      ∀ s : SnapId, s ∈ stp.world.snaps →
        (s = .cur m.origin ∨
          ∃ i, 1 ≤ i ∧ i ≤ R ∧ s = .gen m.origin i)) := by
  have hnd0 : st.world.snaps.Nodup := by rw [hempty]; exact List.nodup_nil
  have hdesc0 : ∀ s : SnapId, s ∈ st.world.snaps ↔
      ((false = true ∧ s = .cur m.origin) ∨
        ∃ i, 1 ≤ i ∧ i ≤ 0 ∧ s = .gen m.origin i) := by
    intro s
    rw [hempty]
    constructor
    · intro h
      exact absurd h (List.not_mem_nil s)
    · rintro (⟨h, _⟩ | ⟨i, h1, h2, _⟩)
      · exact Bool.noConfusion h
      · omega
  obtain ⟨st₁, hc1, hok1, hmnt1, hnd1, hdesc1⟩ :=
    backupCycle_spec m a R 0 false st hm hok hnd0 hR (by omega)
      (fun _ => rfl) hdesc0
  have hok1' : ∀ c, st₁.world.ok c = true := fun c => by
    rw [hok1]; exact hok c
  have hstep : ∀ k, iterCycles a R (k + 1) st = iterCycles a R k st₁ := by
    intro k
    simp only [iterCycles, hc1, Result.andThen]
  have hiter := fun k =>
    iterCycles_spec m a R hm hR k 0 st₁ (by omega) hok1' hnd1 hdesc1
  refine ⟨?_, ?_, ?_⟩
  · -- exact description after R+1 cycles
    obtain ⟨st', hrun', hok', hmnt', hnd', hdesc'⟩ := hiter R
    have hmeq : min (0 + R) (R - 1) = R - 1 := by omega
    rw [hmeq] at hdesc'
    refine ⟨st', (hstep R).trans hrun', hdesc', ?_⟩
    intro h
    rcases (hdesc' _).mp h with h' | ⟨i, hi1, hi2, h'⟩
    · exact SnapId.noConfusion h'
    · have : R = i := (SnapId.gen.inj h').2
      omega
  · -- bound after every completed cycle
    intro k hk
    cases k with
    | zero =>
      refine ⟨st, rfl, ?_⟩
      intro s hs
      rw [hempty] at hs
      exact absurd hs (List.not_mem_nil s)
    | succ k =>
      obtain ⟨stk, hrunk, hokk, hmntk, hndk, hdesck⟩ := hiter k
      refine ⟨stk, (hstep k).trans hrunk, ?_⟩
      intro s hs
      rcases (hdesck s).mp hs with h | ⟨i, hi1, hi2, h⟩
      · exact Or.inl h
      · exact Or.inr ⟨i, hi1, by omega, h⟩
  · -- transient peak bound within each cycle
    intro k hk
    cases k with
    | zero =>
      obtain ⟨stp, hrunp, hbound⟩ :=
        archiveCreate_peak m a R 0 false st hm hok hnd0 hR (by omega)
          (fun _ => rfl) hdesc0
      exact ⟨st, stp, rfl, hrunp, hbound⟩
    | succ k =>
      obtain ⟨stk, hrunk, hokk, hmntk, hndk, hdesck⟩ := hiter k
      have hokk' : ∀ c, stk.world.ok c = true := fun c => by
        rw [hokk]; exact hok1' c
      obtain ⟨stp, hrunp, hbound⟩ :=
        archiveCreate_peak m a R (min (0 + k) (R - 1)) true stk hm hokk' hndk
          hR (by omega) (fun h => Bool.noConfusion h)
          (fun s => (hdesck s).trans
            ⟨fun h => h.imp (fun hh => ⟨rfl, hh⟩) id,
             fun h => h.imp And.right id⟩)
      exact ⟨stk, stp, (hstep k).trans hrunk, hrunp, hbound⟩

theorem c2_retention_cycles_witness :
    (∃ st', iterCycles appBlog 2 3 stEmpty = .ok st' ∧
      (∀ s : SnapId, s ∈ st'.world.snaps ↔
        (s = .cur mountBlog.origin ∨
          ∃ i, 1 ≤ i ∧ i ≤ 2 - 1 ∧ s = .gen mountBlog.origin i)) ∧
      SnapId.gen mountBlog.origin 2 ∉ st'.world.snaps) ∧
    (∀ k, k ≤ 2 + 1 → ∃ stk, iterCycles appBlog 2 k stEmpty = .ok stk ∧
      ∀ s : SnapId, s ∈ stk.world.snaps →
        (s = .cur mountBlog.origin ∨
          ∃ i, 1 ≤ i ∧ i ≤ 2 - 1 ∧ s = .gen mountBlog.origin i)) ∧
    (∀ k, k ≤ 2 → ∃ stk stp, iterCycles appBlog 2 k stEmpty = .ok stk ∧
      ((archive_snapshots appBlog 2 stk).andThen fun st =>
        snapshot_mounts appBlog st) = .ok stp ∧
      ∀ s : SnapId, s ∈ stp.world.snaps →
        (s = .cur mountBlog.origin ∨
          ∃ i, 1 ≤ i ∧ i ≤ 2 ∧ s = .gen mountBlog.origin i)) :=
  c2_retention_cycles mountBlog appBlog 2 stEmpty rfl (fun c => rfl) rfl
    (by decide)

/-! ## Trace-extension facts

`TraceExt f P` says: whatever state `f` starts from, and whether it returns
or raises, it appends to the trace only commands satisfying `P`.  These
facts hold for every oracle — they do not assume external commands
succeed. -/

/-- Command classifier: container-runtime commands. -/
def Cmd.isDocker : Cmd → Bool
  | .dockerStop _ => true
  | .dockerStart _ => true
  | _ => false

/-- Command classifier: mount-layer commands. -/
def Cmd.isMountOp : Cmd → Bool
  | .mountpointCheck _ => true
  | .umountCmd _ => true
  | .mountCmd _ _ => true
  | .mkdirCmd _ => true
  | _ => false

/-- The commands the archive pass over a mount with origin `o` may issue:
existence checks, one-slot-up renames, and the destroy of slot `R` only. -/
def ArchCmd (o : String) (R : Nat) (c : Cmd) : Prop :=
  (∃ i, c = Cmd.zfsList (.gen o i)) ∨
  (∃ i, c = Cmd.zfsRename (.gen o i) (.gen o (i + 1))) ∨
  c = Cmd.zfsList (.cur o) ∨
  c = Cmd.zfsRename (.cur o) (.gen o 1) ∨
  c = Cmd.zfsDestroy (.gen o R)

/-- `f` appends only `P`-commands to the trace, on success and on error. -/
def TraceExt (f : St → Result) (P : Cmd → Prop) : Prop :=
  ∀ st, ∃ ext, (f st).state.trace = st.trace ++ ext ∧ ∀ c ∈ ext, P c

lemma TraceExt.mono {f : St → Result} {P Q : Cmd → Prop} (h : TraceExt f P)
    (hpq : ∀ c, P c → Q c) : TraceExt f Q := fun st =>
  let ⟨ext, h1, h2⟩ := h st
  ⟨ext, h1, fun c hc => hpq c (h2 c hc)⟩

lemma traceExt_ok (P : Cmd → Prop) : TraceExt (fun st => .ok st) P :=
  fun st => ⟨[], by simp [Result.state], fun c hc => absurd hc
    (List.not_mem_nil c)⟩

lemma TraceExt.comp {f g : St → Result} {P : Cmd → Prop} (hf : TraceExt f P)
    (hg : TraceExt g P) : TraceExt (fun st => (f st).andThen g) P := by
  intro st
  obtain ⟨e1, h1, hp1⟩ := hf st
  cases hfst : f st with
  | ok st₁ =>
    obtain ⟨e2, h2, hp2⟩ := hg st₁
    refine ⟨e1 ++ e2, ?_, ?_⟩
    · rw [hfst] at h1
      simp only [Result.state] at h1
      simp only [hfst, Result.andThen]
      rw [h2, h1, List.append_assoc]
    · intro c hc
      rcases List.mem_append.mp hc with hc | hc
      · exact hp1 c hc
      · exact hp2 c hc
  | err msg st₁ =>
    refine ⟨e1, ?_, hp1⟩
    rw [hfst] at h1
    simp only [Result.state] at h1
    simp only [hfst, Result.andThen, Result.state]
    exact h1

lemma traceExt_skip (b : Prop) [Decidable b] (hb : ¬b) (f : St → Result)
    (P : Cmd → Prop) : TraceExt (fun st => if b then f st else .ok st) P := by
  intro st
  simp only [if_neg hb]
  exact traceExt_ok P st

lemma TraceExt.guard {f : St → Result} {P : Cmd → Prop} (b : Prop)
    [Decidable b] (hf : TraceExt f P) :
    TraceExt (fun st => if b then f st else .ok st) P := by
  intro st
  by_cases hb : b
  · simp only [if_pos hb]
    exact hf st
  · simp only [if_neg hb]
    exact traceExt_ok P st

lemma apps_loop_traceExt (f : App → St → Result) (P : Cmd → Prop)
    (apps : List App) (hf : ∀ a ∈ apps, TraceExt (f a) P) :
    TraceExt (apps_loop f apps) P := by
  induction apps with
  | nil =>
    intro st
    exact ⟨[], by simp [apps_loop, Result.state], fun c hc => absurd hc
      (List.not_mem_nil c)⟩
  | cons a rest ih =>
    have hcomp := TraceExt.comp (hf a (List.mem_cons_self a rest))
      (ih fun a' ha' => hf a' (List.mem_cons_of_mem a ha'))
    intro st
    obtain ⟨ext, h1, h2⟩ := hcomp st
    exact ⟨ext, by simpa [apps_loop] using h1, h2⟩

lemma remove_mount_last_traceExt (m : Mount) (nm : String) (R : Nat) :
    TraceExt (remove_mount_last_snapshot m nm R) fun c =>
      c = Cmd.zfsList (.gen m.origin R) ∨
      c = Cmd.zfsDestroy (.gen m.origin R) := by
  intro st
  simp only [remove_mount_last_snapshot, runCmd]
  split
  · split
    · refine ⟨[Cmd.zfsList (.gen m.origin R), Cmd.zfsDestroy (.gen m.origin R)],
        by simp [Result.state], ?_⟩
      intro c hc
      rcases List.mem_cons.mp hc with rfl | hc
      · exact Or.inl rfl
      · rw [List.mem_singleton.mp hc]
        exact Or.inr rfl
    · refine ⟨[Cmd.zfsList (.gen m.origin R), Cmd.zfsDestroy (.gen m.origin R)],
        by simp [Result.state], ?_⟩
      intro c hc
      rcases List.mem_cons.mp hc with rfl | hc
      · exact Or.inl rfl
      · rw [List.mem_singleton.mp hc]
        exact Or.inr rfl
  · exact ⟨[Cmd.zfsList (.gen m.origin R)], by simp [Result.state],
      fun c hc => Or.inl (List.mem_singleton.mp hc)⟩

/-- Helper: finish a trace-extension goal after some commands `pre` have
already been appended. -/
lemma traceExt_finish {f : St → Result} {P : Cmd → Prop} (h : TraceExt f P)
    (W : World) (T : List Cmd) (pre : List Cmd) (hpre : ∀ c ∈ pre, P c) :
    ∃ ext, (f { world := W, trace := T ++ pre }).state.trace = T ++ ext ∧
      ∀ c ∈ ext, P c := by
  obtain ⟨ext, h1, h2⟩ := h { world := W, trace := T ++ pre }
  refine ⟨pre ++ ext, ?_, ?_⟩
  · rw [h1]
    simp only [List.append_assoc]
  · intro c hc
    rcases List.mem_append.mp hc with hc | hc
    · exact hpre c hc
    · exact h2 c hc

lemma rename_from_traceExt (m : Mount) (nm : String) (n : Nat) :
    TraceExt (rename_mount_snapshots_from m nm n) fun c =>
      (∃ i, c = Cmd.zfsList (.gen m.origin i)) ∨
      ∃ i, c = Cmd.zfsRename (.gen m.origin i) (.gen m.origin (i + 1)) := by
  induction n with
  | zero =>
    intro st
    exact ⟨[], by simp [rename_mount_snapshots_from, Result.state],
      fun c hc => absurd hc (List.not_mem_nil c)⟩
  | succ k ih =>
    intro st
    simp only [rename_mount_snapshots_from, runCmd]
    split
    · split
      · refine ⟨[Cmd.zfsList (.gen m.origin (k + 1)),
          Cmd.zfsRename (.gen m.origin (k + 1)) (.gen m.origin (k + 2))],
          by simp [Result.state], ?_⟩
        intro c hc
        rcases List.mem_cons.mp hc with rfl | hc
        · exact Or.inl ⟨k + 1, rfl⟩
        · rw [List.mem_singleton.mp hc]
          exact Or.inr ⟨k + 1, rfl⟩
      · rw [List.append_assoc]
        refine traceExt_finish ih _ _ _ ?_
        intro c hc
        rcases List.mem_cons.mp hc with rfl | hc
        · exact Or.inl ⟨k + 1, rfl⟩
        · rw [List.mem_singleton.mp hc]
          exact Or.inr ⟨k + 1, rfl⟩
    · refine traceExt_finish ih _ _ [Cmd.zfsList (.gen m.origin (k + 1))] ?_
      intro c hc
      rw [List.mem_singleton.mp hc]
      exact Or.inl ⟨k + 1, rfl⟩

lemma rename_latest_traceExt (m : Mount) (nm : String) :
    TraceExt (rename_mount_latest_snapshot m nm) fun c =>
      c = Cmd.zfsList (.cur m.origin) ∨
      c = Cmd.zfsRename (.cur m.origin) (.gen m.origin 1) := by
  intro st
  simp only [rename_mount_latest_snapshot, runCmd]
  split
  · split
    · refine ⟨[Cmd.zfsList (.cur m.origin),
        Cmd.zfsRename (.cur m.origin) (.gen m.origin 1)],
        by simp [Result.state], ?_⟩
      intro c hc
      rcases List.mem_cons.mp hc with rfl | hc
      · exact Or.inl rfl
      · rw [List.mem_singleton.mp hc]
        exact Or.inr rfl
    · refine ⟨[Cmd.zfsList (.cur m.origin),
        Cmd.zfsRename (.cur m.origin) (.gen m.origin 1)],
        by simp [Result.state], ?_⟩
      intro c hc
      rcases List.mem_cons.mp hc with rfl | hc
      · exact Or.inl rfl
      · rw [List.mem_singleton.mp hc]
        exact Or.inr rfl
  · exact ⟨[Cmd.zfsList (.cur m.origin)], by simp [Result.state],
      fun c hc => Or.inl (List.mem_singleton.mp hc)⟩

lemma archive_mount_traceExt (m : Mount) (nm : String) (R : Nat) :
    TraceExt (archive_mount m nm R) (ArchCmd m.origin R) := by
  have h1 := (remove_mount_last_traceExt m nm R).mono
    (Q := ArchCmd m.origin R) (by
      rintro c (rfl | rfl)
      · exact Or.inl ⟨R, rfl⟩
      · exact Or.inr (Or.inr (Or.inr (Or.inr rfl))))
  have h2 := (rename_from_traceExt m nm (R - 1)).mono
    (Q := ArchCmd m.origin R) (by
      rintro c (⟨i, rfl⟩ | ⟨i, rfl⟩)
      · exact Or.inl ⟨i, rfl⟩
      · exact Or.inr (Or.inl ⟨i, rfl⟩))
  have h3 := (rename_latest_traceExt m nm).mono
    (Q := ArchCmd m.origin R) (by
      rintro c (rfl | rfl)
      · exact Or.inr (Or.inr (Or.inl rfl))
      · exact Or.inr (Or.inr (Or.inr (Or.inl rfl))))
  have := TraceExt.comp h1 (TraceExt.comp h2 h3)
  intro st
  obtain ⟨ext, he, hp⟩ := this st
  refine ⟨ext, ?_, hp⟩
  simpa [archive_mount, rename_mount_snapshots] using he

lemma archive_snapshots_traceExt (a : App) (R : Nat) :
    TraceExt (archive_snapshots a R) fun c =>
      ∃ m ∈ a.mounts, ArchCmd m.origin R c := by
  suffices h : ∀ mounts : List Mount,
      TraceExt (archive_snapshots_loop mounts a.name R) fun c =>
        ∃ m ∈ mounts, ArchCmd m.origin R c by
    intro st
    obtain ⟨ext, he, hp⟩ := h a.mounts st
    exact ⟨ext, by simpa [archive_snapshots] using he, hp⟩
  intro mounts
  induction mounts with
  | nil =>
    intro st
    exact ⟨[], by simp [archive_snapshots_loop, Result.state],
      fun c hc => absurd hc (List.not_mem_nil c)⟩
  | cons m rest ih =>
    have hhead := (archive_mount_traceExt m a.name R).mono
      (Q := fun c => ∃ m' ∈ m :: rest, ArchCmd m'.origin R c)
      (fun c hc => ⟨m, List.mem_cons_self m rest, hc⟩)
    have htail := ih.mono
      (Q := fun c => ∃ m' ∈ m :: rest, ArchCmd m'.origin R c)
      (fun c ⟨m', hm', hc⟩ => ⟨m', List.mem_cons_of_mem m hm', hc⟩)
    have hcomp := TraceExt.comp hhead htail
    intro st
    obtain ⟨ext, he, hp⟩ := hcomp st
    exact ⟨ext, by simpa [archive_snapshots_loop] using he, hp⟩

lemma stop_containers_traceExt (a : App) :
    TraceExt (stop_containers a) fun c =>
      c = Cmd.dockerStop a.containers.reverse := by
  intro st
  simp only [stop_containers, runCmd]
  split
  · exact ⟨[Cmd.dockerStop a.containers.reverse], by simp [Result.state],
      fun c hc => List.mem_singleton.mp hc⟩
  · exact ⟨[Cmd.dockerStop a.containers.reverse], by simp [Result.state],
      fun c hc => List.mem_singleton.mp hc⟩

lemma start_containers_traceExt (a : App) :
    TraceExt (start_containers a) fun c =>
      c = Cmd.dockerStart a.containers := by
  intro st
  simp only [start_containers, runCmd]
  split
  · exact ⟨[Cmd.dockerStart a.containers], by simp [Result.state],
      fun c hc => List.mem_singleton.mp hc⟩
  · exact ⟨[Cmd.dockerStart a.containers], by simp [Result.state],
      fun c hc => List.mem_singleton.mp hc⟩

lemma snapshot_mounts_traceExt (a : App) :
    TraceExt (snapshot_mounts a) fun c =>
      ∃ m ∈ a.mounts, c = Cmd.zfsSnapshot (.cur m.origin) := by
  suffices h : ∀ mounts : List Mount,
      TraceExt (snapshot_mounts_loop mounts a.name) fun c =>
        ∃ m ∈ mounts, c = Cmd.zfsSnapshot (.cur m.origin) by
    intro st
    obtain ⟨ext, he, hp⟩ := h a.mounts st
    exact ⟨ext, by simpa [snapshot_mounts] using he, hp⟩
  intro mounts
  induction mounts with
  | nil =>
    intro st
    exact ⟨[], by simp [snapshot_mounts_loop, Result.state],
      fun c hc => absurd hc (List.not_mem_nil c)⟩
  | cons m rest ih =>
    intro st
    simp only [snapshot_mounts_loop, runCmd]
    split
    · exact ⟨[Cmd.zfsSnapshot (.cur m.origin)], by simp [Result.state],
        fun c hc => ⟨m, List.mem_cons_self m rest,
          List.mem_singleton.mp hc⟩⟩
    · have ihw := ih.mono
        (Q := fun c => ∃ m' ∈ m :: rest, c = Cmd.zfsSnapshot (.cur m'.origin))
        (fun c ⟨m', hm', hc⟩ => ⟨m', List.mem_cons_of_mem m hm', hc⟩)
      refine traceExt_finish ihw _ _ [Cmd.zfsSnapshot (.cur m.origin)] ?_
      intro c hc
      exact ⟨m, List.mem_cons_self m rest, List.mem_singleton.mp hc⟩

lemma remove_last_traceExt (a : App) (R : Nat) :
    TraceExt (remove_last_snapshot a R) fun c =>
      ∃ m ∈ a.mounts, c = Cmd.zfsList (.gen m.origin R) ∨
        c = Cmd.zfsDestroy (.gen m.origin R) := by
  suffices h : ∀ mounts : List Mount,
      TraceExt (remove_last_snapshot_loop mounts a.name R) fun c =>
        ∃ m ∈ mounts, c = Cmd.zfsList (.gen m.origin R) ∨
          c = Cmd.zfsDestroy (.gen m.origin R) by
    intro st
    obtain ⟨ext, he, hp⟩ := h a.mounts st
    exact ⟨ext, by simpa [remove_last_snapshot] using he, hp⟩
  intro mounts
  induction mounts with
  | nil =>
    intro st
    exact ⟨[], by simp [remove_last_snapshot_loop, Result.state],
      fun c hc => absurd hc (List.not_mem_nil c)⟩
  | cons m rest ih =>
    have hhead := (remove_mount_last_traceExt m a.name R).mono
      (Q := fun c => ∃ m' ∈ m :: rest, c = Cmd.zfsList (.gen m'.origin R) ∨
        c = Cmd.zfsDestroy (.gen m'.origin R))
      (fun c hc => ⟨m, List.mem_cons_self m rest, hc⟩)
    have htail := ih.mono
      (Q := fun c => ∃ m' ∈ m :: rest, c = Cmd.zfsList (.gen m'.origin R) ∨
        c = Cmd.zfsDestroy (.gen m'.origin R))
      (fun c ⟨m', hm', hc⟩ => ⟨m', List.mem_cons_of_mem m hm', hc⟩)
    have hcomp := TraceExt.comp hhead htail
    intro st
    obtain ⟨ext, he, hp⟩ := hcomp st
    exact ⟨ext, by simpa [remove_last_snapshot_loop] using he, hp⟩

lemma unmount_children_traceExt (children : List String) (dest nm : String) :
    TraceExt (unmount_children_loop children dest nm) fun c =>
      c.isMountOp = true := by
  induction children with
  | nil =>
    intro st
    exact ⟨[], by simp [unmount_children_loop, Result.state],
      fun c hc => absurd hc (List.not_mem_nil c)⟩
  | cons child rest ih =>
    intro st
    simp only [unmount_children_loop, runCmd]
    split
    · split
      · refine ⟨[Cmd.mountpointCheck (.sub dest child),
          Cmd.umountCmd (.sub dest child)], by simp [Result.state], ?_⟩
        intro c hc
        rcases List.mem_cons.mp hc with rfl | hc
        · rfl
        · rw [List.mem_singleton.mp hc]
          rfl
      · rw [List.append_assoc]
        refine traceExt_finish ih _ _ _ ?_
        intro c hc
        rcases List.mem_cons.mp hc with rfl | hc
        · rfl
        · rw [List.mem_singleton.mp hc]
          rfl
    · refine traceExt_finish ih _ _ [Cmd.mountpointCheck (.sub dest child)] ?_
      intro c hc
      rw [List.mem_singleton.mp hc]
      rfl

lemma unmount_mount_traceExt (m : Mount) (nm : String) :
    TraceExt (unmount_mount m nm) fun c => c.isMountOp = true := by
  intro st
  simp only [unmount_mount, runCmd]
  split
  · have hbody : TraceExt (fun st =>
        (unmount_children_loop m.children m.destination nm st).andThen
          fun st =>
            let q := runCmd (.umountCmd (.root m.destination)) st
            if q.1 ≠ 0 then
              .err ("Failed to unmount " ++ nm ++ " " ++ m.destination ++
                " snapshot") q.2
            else .ok q.2) fun c => c.isMountOp = true := by
      refine TraceExt.comp (unmount_children_traceExt m.children
        m.destination nm) ?_
      intro st
      simp only [runCmd]
      split
      · exact ⟨[Cmd.umountCmd (.root m.destination)], by simp [Result.state],
          fun c hc => by rw [List.mem_singleton.mp hc]; rfl⟩
      · exact ⟨[Cmd.umountCmd (.root m.destination)], by simp [Result.state],
          fun c hc => by rw [List.mem_singleton.mp hc]; rfl⟩
    refine traceExt_finish hbody _ _
      [Cmd.mountpointCheck (.root m.destination)] ?_
    intro c hc
    rw [List.mem_singleton.mp hc]
    rfl
  · exact ⟨[Cmd.mountpointCheck (.root m.destination)],
      by simp [Result.state],
      fun c hc => by rw [List.mem_singleton.mp hc]; rfl⟩

lemma mount_children_traceExt (children : List String)
    (origin dest nm : String) :
    TraceExt (mount_children_loop children origin dest nm) fun c =>
      c.isMountOp = true := by
  induction children with
  | nil =>
    intro st
    exact ⟨[], by simp [mount_children_loop, Result.state],
      fun c hc => absurd hc (List.not_mem_nil c)⟩
  | cons child rest ih =>
    intro st
    simp only [mount_children_loop, runCmd]
    split
    · exact ⟨[Cmd.mountCmd (.cur (origin ++ "/" ++ child)) (.sub dest child)],
        by simp [Result.state],
        fun c hc => by rw [List.mem_singleton.mp hc]; rfl⟩
    · refine traceExt_finish ih _ _
        [Cmd.mountCmd (.cur (origin ++ "/" ++ child)) (.sub dest child)] ?_
      intro c hc
      rw [List.mem_singleton.mp hc]
      rfl

lemma mount_mount_traceExt (m : Mount) (nm : String) :
    TraceExt (mount_mount m nm) fun c => c.isMountOp = true := by
  intro st
  simp only [mount_mount, runCmd]
  split
  · exact ⟨[Cmd.mkdirCmd (.root m.destination)], by simp [Result.state],
      fun c hc => by rw [List.mem_singleton.mp hc]; rfl⟩
  · split
    · refine ⟨[Cmd.mkdirCmd (.root m.destination),
        Cmd.mountCmd (.cur m.origin) (.root m.destination)],
        by simp [Result.state], ?_⟩
      intro c hc
      rcases List.mem_cons.mp hc with rfl | hc
      · rfl
      · rw [List.mem_singleton.mp hc]
        rfl
    · rw [List.append_assoc]
      refine traceExt_finish (mount_children_traceExt m.children m.origin
        m.destination nm) _ _ _ ?_
      intro c hc
      rcases List.mem_cons.mp hc with rfl | hc
      · rfl
      · rw [List.mem_singleton.mp hc]
        rfl

lemma do_mount_traceExt (a : App) :
    TraceExt (do_mount a) fun c => c.isMountOp = true := by
  suffices h : ∀ mounts : List Mount,
      TraceExt (do_mount_loop mounts a.name) fun c => c.isMountOp = true by
    intro st
    obtain ⟨ext, he, hp⟩ := h a.mounts st
    exact ⟨ext, by simpa [do_mount] using he, hp⟩
  intro mounts
  induction mounts with
  | nil =>
    intro st
    exact ⟨[], by simp [do_mount_loop, Result.state],
      fun c hc => absurd hc (List.not_mem_nil c)⟩
  | cons m rest ih =>
    have hcomp := TraceExt.comp (unmount_mount_traceExt m a.name)
      (TraceExt.comp (mount_mount_traceExt m a.name) ih)
    intro st
    obtain ⟨ext, he, hp⟩ := hcomp st
    exact ⟨ext, by simpa [do_mount_loop] using he, hp⟩

lemma send_notification_traceExt (url status msg : String) :
    TraceExt (send_notification url status msg) fun c =>
      c = Cmd.notifyCmd url status msg := by
  intro st
  exact ⟨[Cmd.notifyCmd url status msg],
    by simp [send_notification, runCmd, Result.state],
    fun c hc => List.mem_singleton.mp hc⟩

lemma stop_backup_traceExt (bc : List String) :
    TraceExt (stop_backup_containers bc) fun c =>
      c = Cmd.dockerStop bc.reverse := by
  intro st
  simp only [stop_backup_containers, runCmd]
  split
  · exact ⟨[Cmd.dockerStop bc.reverse], by simp [Result.state],
      fun c hc => List.mem_singleton.mp hc⟩
  · exact ⟨[Cmd.dockerStop bc.reverse], by simp [Result.state],
      fun c hc => List.mem_singleton.mp hc⟩

lemma start_backup_traceExt (bc : List String) :
    TraceExt (start_backup_containers bc) fun c =>
      c = Cmd.dockerStart bc := by
  intro st
  simp only [start_backup_containers, runCmd]
  split
  · exact ⟨[Cmd.dockerStart bc], by simp [Result.state],
      fun c hc => List.mem_singleton.mp hc⟩
  · exact ⟨[Cmd.dockerStart bc], by simp [Result.state],
      fun c hc => List.mem_singleton.mp hc⟩

/-- The optional-notification step of `snapshot_manager`, as a named
function (definitionally the inline `match` in the source). -/
def notifyOpt (mu : Option String) (status msg : String) (st : St) : Result :=
  match mu with
  | some url => send_notification url status msg st
  | none => .ok st

lemma notifyOpt_traceExt (mu : Option String) (status msg : String)
    (P : Cmd → Prop) (h : ∀ u, mu = some u → P (Cmd.notifyCmd u status msg)) :
    TraceExt (notifyOpt mu status msg) P := by
  cases mu with
  | none => exact traceExt_ok P
  | some u =>
    exact (send_notification_traceExt u status msg).mono
      fun c hc => hc ▸ h u rfl

/-- The invariant behind C10: a command may destroy only a snapshot named
`origin@backup-R`. -/
def DestroysOnlyGenR (R : Nat) (c : Cmd) : Prop :=
  ∀ s, c = Cmd.zfsDestroy s → ∃ o, s = SnapId.gen o R

lemma archCmd_destroys {o : String} {R : Nat} {c : Cmd}
    (h : ArchCmd o R c) : DestroysOnlyGenR R c := by
  rcases h with ⟨i, rfl⟩ | ⟨i, rfl⟩ | rfl | rfl | rfl
  · exact fun s hs => Cmd.noConfusion hs
  · exact fun s hs => Cmd.noConfusion hs
  · exact fun s hs => Cmd.noConfusion hs
  · exact fun s hs => Cmd.noConfusion hs
  · exact fun s hs => ⟨o, (Cmd.zfsDestroy.inj hs).symm⟩

lemma mountOp_destroys {R : Nat} {c : Cmd} (h : c.isMountOp = true) :
    DestroysOnlyGenR R c := by
  intro s hs
  rw [hs] at h
  exact absurd h (by simp [Cmd.isMountOp])

lemma do_snapshot_traceExt_destroys (a : App) (R : Nat) :
    TraceExt (do_snapshot a R) (DestroysOnlyGenR R) := by
  have h1 := (archive_snapshots_traceExt a R).mono
    (Q := DestroysOnlyGenR R) fun c ⟨m, _, hc⟩ => archCmd_destroys hc
  have h2 := TraceExt.guard (f := stop_containers a)
    (P := DestroysOnlyGenR R) (a.containers ≠ [])
    ((stop_containers_traceExt a).mono fun c hc s hs =>
      Cmd.noConfusion (hc ▸ hs).symm)
  have h3 := (snapshot_mounts_traceExt a).mono
    (Q := DestroysOnlyGenR R) fun c ⟨m, _, hc⟩ s hs =>
      Cmd.noConfusion (hc ▸ hs).symm
  have h4 := TraceExt.guard (f := start_containers a)
    (P := DestroysOnlyGenR R) (a.containers ≠ [])
    ((start_containers_traceExt a).mono fun c hc s hs =>
      Cmd.noConfusion (hc ▸ hs).symm)
  have hcomp := TraceExt.comp h1 (TraceExt.comp h2 (TraceExt.comp h3 h4))
  intro st
  obtain ⟨ext, he, hp⟩ := hcomp st
  exact ⟨ext, by simpa [do_snapshot] using he, hp⟩

lemma snapshot_manager_traceExt_destroys (R : Nat) (bc : List String)
    (mu : Option String) (apps : List App) :
    TraceExt (snapshot_manager R bc mu apps) (DestroysOnlyGenR R) := by
  have hn1 := notifyOpt_traceExt mu "up" "start" (DestroysOnlyGenR R)
    fun u _ s hs => Cmd.noConfusion hs
  have hn2 := notifyOpt_traceExt mu "up" "finish" (DestroysOnlyGenR R)
    fun u _ s hs => Cmd.noConfusion hs
  have hl1 := apps_loop_traceExt (fun app => do_snapshot app R)
    (DestroysOnlyGenR R) apps fun a _ => do_snapshot_traceExt_destroys a R
  have hbs := TraceExt.guard (f := stop_backup_containers bc)
    (P := DestroysOnlyGenR R) (bc ≠ [])
    ((stop_backup_traceExt bc).mono fun c hc s hs =>
      Cmd.noConfusion (hc ▸ hs).symm)
  have hl2 := apps_loop_traceExt do_mount (DestroysOnlyGenR R) apps
    fun a _ => (do_mount_traceExt a).mono fun c hc => mountOp_destroys hc
  have hbt := TraceExt.guard (f := start_backup_containers bc)
    (P := DestroysOnlyGenR R) (bc ≠ [])
    ((start_backup_traceExt bc).mono fun c hc s hs =>
      Cmd.noConfusion (hc ▸ hs).symm)
  have hl3 := apps_loop_traceExt (fun app => remove_last_snapshot app R)
    (DestroysOnlyGenR R) apps fun a _ => (remove_last_traceExt a R).mono
      (by
        rintro c ⟨m, _, rfl | rfl⟩
        · exact fun s hs => Cmd.noConfusion hs
        · exact fun s hs => ⟨m.origin, (Cmd.zfsDestroy.inj hs).symm⟩)
  have hcomp := TraceExt.comp hn1 (TraceExt.comp hl1 (TraceExt.comp hbs
    (TraceExt.comp hl2 (TraceExt.comp hbt (TraceExt.comp hl3 hn2)))))
  intro st
  obtain ⟨ext, he, hp⟩ := hcomp st
  exact ⟨ext, he, hp⟩

/-! ## Claim C10 -/

/-- **C10**: throughout every run — any retention, containers, monitor,
apps, starting state and oracle, whether the run completes or aborts — the
only snapshot identifiers ever passed to `zfs destroy` have the exact form
`origin@backup-retention`: the current `origin@backup` is never destroyed,
and an archived `origin@backup-i` is destroyed only when `i` is exactly the
retention. -/
theorem c10_destroy_targets (R : Nat) (bc : List String) (mu : Option String)
    (apps : List App) (st : St) :
    ∃ ext, (snapshot_manager R bc mu apps st).state.trace =
        st.trace ++ ext ∧
      (∀ s, Cmd.zfsDestroy s ∈ ext → ∃ o, s = SnapId.gen o R) ∧
      (∀ o, Cmd.zfsDestroy (SnapId.cur o) ∉ ext) ∧
      (∀ o i, i ≠ R → Cmd.zfsDestroy (SnapId.gen o i) ∉ ext) := by
  obtain ⟨ext, he, hp⟩ := snapshot_manager_traceExt_destroys R bc mu apps st
  refine ⟨ext, he, fun s hs => hp _ hs s rfl, ?_, ?_⟩
  · intro o hmem
    obtain ⟨o', ho'⟩ := hp _ hmem _ rfl
    exact SnapId.noConfusion ho'
  · intro o i hiR hmem
    obtain ⟨o', ho'⟩ := hp _ hmem _ rfl
    exact hiR (SnapId.gen.inj ho').2

theorem c10_destroy_targets_witness :
    ∃ ext, (snapshot_manager 2 [] none [appBlog] stBlog).state.trace =
        stBlog.trace ++ ext ∧
      (∀ s, Cmd.zfsDestroy s ∈ ext → ∃ o, s = SnapId.gen o 2) ∧
      (∀ o, Cmd.zfsDestroy (SnapId.cur o) ∉ ext) ∧
      (∀ o i, i ≠ 2 → Cmd.zfsDestroy (SnapId.gen o i) ∉ ext) :=
  c10_destroy_targets 2 [] none [appBlog] stBlog

/-! ## Claim C9 -/

lemma do_snapshot_noDocker (a : App) (R : Nat) (h : a.containers = []) :
    TraceExt (do_snapshot a R) fun c => c.isDocker = false := by
  have hne : ¬(a.containers ≠ []) := by simp [h]
  have h1 := (archive_snapshots_traceExt a R).mono
    (Q := fun c => c.isDocker = false) (by
      rintro c ⟨m, _, ⟨i, rfl⟩ | ⟨i, rfl⟩ | rfl | rfl | rfl⟩ <;> rfl)
  have h2 := traceExt_skip (a.containers ≠ []) hne (stop_containers a)
    fun c => c.isDocker = false
  have h3 := (snapshot_mounts_traceExt a).mono
    (Q := fun c => c.isDocker = false) (by rintro c ⟨m, _, rfl⟩; rfl)
  have h4 := traceExt_skip (a.containers ≠ []) hne (start_containers a)
    fun c => c.isDocker = false
  have hcomp := TraceExt.comp h1 (TraceExt.comp h2 (TraceExt.comp h3 h4))
  intro st
  obtain ⟨ext, he, hp⟩ := hcomp st
  exact ⟨ext, he, hp⟩

/-- The guards `if app.containers:` / `if backup_containers:` mean no
container-runtime command ever carries an empty target list. -/
def NoEmptyDocker (c : Cmd) : Prop :=
  c ≠ Cmd.dockerStop [] ∧ c ≠ Cmd.dockerStart []

lemma TraceExt.guard_hyp {f : St → Result} {P : Cmd → Prop} (b : Prop)
    [Decidable b] (hf : b → TraceExt f P) :
    TraceExt (fun st => if b then f st else .ok st) P := by
  intro st
  by_cases hb : b
  · simp only [if_pos hb]
    exact hf hb st
  · simp only [if_neg hb]
    exact traceExt_ok P st

lemma archCmd_noEmptyDocker {o : String} {R : Nat} {c : Cmd}
    (h : ArchCmd o R c) : NoEmptyDocker c := by
  rcases h with ⟨i, rfl⟩ | ⟨i, rfl⟩ | rfl | rfl | rfl <;>
    exact ⟨fun hh => Cmd.noConfusion hh, fun hh => Cmd.noConfusion hh⟩

lemma mountOp_noEmptyDocker {c : Cmd} (h : c.isMountOp = true) :
    NoEmptyDocker c := by
  constructor
  · intro hh
    rw [hh] at h
    exact absurd h (by simp [Cmd.isMountOp])
  · intro hh
    rw [hh] at h
    exact absurd h (by simp [Cmd.isMountOp])

lemma do_snapshot_noEmptyDocker (a : App) (R : Nat) :
    TraceExt (do_snapshot a R) NoEmptyDocker := by
  have h1 := (archive_snapshots_traceExt a R).mono
    (Q := NoEmptyDocker) fun c ⟨m, _, hc⟩ => archCmd_noEmptyDocker hc
  have h2 := TraceExt.guard_hyp (f := stop_containers a)
    (P := NoEmptyDocker) (a.containers ≠ []) fun hb =>
    (stop_containers_traceExt a).mono fun c hc => by
      subst hc
      refine ⟨fun hh => ?_, fun hh => Cmd.noConfusion hh⟩
      exact hb (List.reverse_eq_nil_iff.mp (Cmd.dockerStop.inj hh))
  have h3 := (snapshot_mounts_traceExt a).mono
    (Q := NoEmptyDocker) fun c hc => by
      obtain ⟨m, _, hc⟩ := hc
      subst hc
      exact ⟨fun hh => Cmd.noConfusion hh, fun hh => Cmd.noConfusion hh⟩
  have h4 := TraceExt.guard_hyp (f := start_containers a)
    (P := NoEmptyDocker) (a.containers ≠ []) fun hb =>
    (start_containers_traceExt a).mono fun c hc => by
      subst hc
      exact ⟨fun hh => Cmd.noConfusion hh,
        fun hh => hb (Cmd.dockerStart.inj hh)⟩
  have hcomp := TraceExt.comp h1 (TraceExt.comp h2 (TraceExt.comp h3 h4))
  intro st
  obtain ⟨ext, he, hp⟩ := hcomp st
  exact ⟨ext, he, hp⟩

lemma snapshot_manager_noEmptyDocker (R : Nat) (bc : List String)
    (mu : Option String) (apps : List App) :
    TraceExt (snapshot_manager R bc mu apps) NoEmptyDocker := by
  have hn1 := notifyOpt_traceExt mu "up" "start" NoEmptyDocker
    fun u _ => ⟨fun hh => Cmd.noConfusion hh, fun hh => Cmd.noConfusion hh⟩
  have hn2 := notifyOpt_traceExt mu "up" "finish" NoEmptyDocker
    fun u _ => ⟨fun hh => Cmd.noConfusion hh, fun hh => Cmd.noConfusion hh⟩
  have hl1 := apps_loop_traceExt (fun app => do_snapshot app R)
    NoEmptyDocker apps fun a _ => do_snapshot_noEmptyDocker a R
  have hbs := TraceExt.guard_hyp (f := stop_backup_containers bc)
    (P := NoEmptyDocker) (bc ≠ []) fun hb =>
    (stop_backup_traceExt bc).mono fun c hc => by
      subst hc
      refine ⟨fun hh => ?_, fun hh => Cmd.noConfusion hh⟩
      exact hb (List.reverse_eq_nil_iff.mp (Cmd.dockerStop.inj hh))
  have hl2 := apps_loop_traceExt do_mount NoEmptyDocker apps
    fun a _ => (do_mount_traceExt a).mono
      fun c hc => mountOp_noEmptyDocker hc
  have hbt := TraceExt.guard_hyp (f := start_backup_containers bc)
    (P := NoEmptyDocker) (bc ≠ []) fun hb =>
    (start_backup_traceExt bc).mono fun c hc => by
      subst hc
      exact ⟨fun hh => Cmd.noConfusion hh,
        fun hh => hb (Cmd.dockerStart.inj hh)⟩
  have hl3 := apps_loop_traceExt (fun app => remove_last_snapshot app R)
    NoEmptyDocker apps fun a _ => (remove_last_traceExt a R).mono
      (by
        rintro c ⟨m, _, rfl | rfl⟩ <;>
          exact ⟨fun hh => Cmd.noConfusion hh, fun hh => Cmd.noConfusion hh⟩)
  have hcomp := TraceExt.comp hn1 (TraceExt.comp hl1 (TraceExt.comp hbs
    (TraceExt.comp hl2 (TraceExt.comp hbt (TraceExt.comp hl3 hn2)))))
  intro st
  obtain ⟨ext, he, hp⟩ := hcomp st
  exact ⟨ext, he, hp⟩

/-- **C9**: a container-runtime stop/start is never issued with an empty
target list — the call is skipped entirely: an app with no declared
containers causes no `docker stop`/`docker start` at all during its
snapshot phase, and in every run whose backup-container list is empty —
whatever containers its apps declare — no `docker stop`/`docker start`
with an empty target list is ever invoked, on success or on abort. -/
theorem c9_empty_containers :
    (∀ (a : App) (R : Nat) (st : St), a.containers = [] →
      ∃ ext, (do_snapshot a R st).state.trace = st.trace ++ ext ∧
        ∀ cs, Cmd.dockerStop cs ∉ ext ∧ Cmd.dockerStart cs ∉ ext) ∧
    (∀ (R : Nat) (mu : Option String) (apps : List App) (st : St),
      ∃ ext, (snapshot_manager R [] mu apps st).state.trace =
          st.trace ++ ext ∧
        Cmd.dockerStop [] ∉ ext ∧ Cmd.dockerStart [] ∉ ext) := by
  constructor
  · intro a R st h
    obtain ⟨ext, he, hp⟩ := do_snapshot_noDocker a R h st
    refine ⟨ext, he, fun cs => ⟨fun hm => ?_, fun hm => ?_⟩⟩
    · have := hp _ hm
      exact absurd this (by simp [Cmd.isDocker])
    · have := hp _ hm
      exact absurd this (by simp [Cmd.isDocker])
  · intro R mu apps st
    obtain ⟨ext, he, hp⟩ := snapshot_manager_noEmptyDocker R [] mu apps st
    exact ⟨ext, he, fun hm => (hp _ hm).1 rfl, fun hm => (hp _ hm).2 rfl⟩

theorem c9_empty_containers_witness :
    (∃ ext, (do_snapshot appBlog 2 stBlog).state.trace =
        stBlog.trace ++ ext ∧
      ∀ cs, Cmd.dockerStop cs ∉ ext ∧ Cmd.dockerStart cs ∉ ext) ∧
    (∃ ext, (snapshot_manager 2 [] none [appWeb] stRun).state.trace =
        stRun.trace ++ ext ∧
      Cmd.dockerStop [] ∉ ext ∧ Cmd.dockerStart [] ∉ ext) :=
  ⟨c9_empty_containers.1 appBlog 2 stBlog rfl,
   c9_empty_containers.2 2 none [appWeb] stRun⟩

/-! ## Claim C8 -/

lemma Result.andThen_assoc (r : Result) (f g : St → Result) :
    (r.andThen f).andThen g = r.andThen fun st => (f st).andThen g := by
  cases r <;> rfl

lemma apps_loop_append (f : App → St → Result) (l1 l2 : List App) (st : St) :
    apps_loop f (l1 ++ l2) st = (apps_loop f l1 st).andThen
      (apps_loop f l2) := by
  induction l1 generalizing st with
  | nil => simp [apps_loop, Result.andThen]
  | cons a rest ih =>
    simp only [List.cons_append, apps_loop, Result.andThen_assoc]
    cases h : f a st with
    | ok st₁ => simp [Result.andThen, ih]
    | err e st₁ => simp [Result.andThen]

def appFail : App := { name := "a", containers := ["c1"], mounts := [] }

/-- An oracle under which only `docker stop c1` fails. -/
def okNoStop : Cmd → Bool := fun c => decide (c ≠ Cmd.dockerStop ["c1"])

def stFail : St :=
  { world := { snaps := [], mounted := [], ok := okNoStop },
    trace := [] }

/-- **C8**: if stopping an app's containers returns a nonzero exit status,
the whole run aborts right there: the run's result is the raised stop
error, its final trace ends with the failed `docker stop` — so no snapshot
is created for that app (the commands since the app's phase began are
archive commands only, never `zfs snapshot`), and no later app and no later
phase (backup-group stop, remount, backup-group start, prune, finish
notification) appends anything. -/
theorem c8_stop_failure_aborts (R : Nat) (bc : List String)
    (mu : Option String) (pre post : List App) (a : App)
    (st st₁ st₂ st₃ : St)
    (hn : notifyOpt mu "up" "start" st = .ok st₁)
    (hpre : apps_loop (fun app => do_snapshot app R) pre st₁ = .ok st₂)
    (hcs : a.containers ≠ [])
    (harch : archive_snapshots a R st₂ = .ok st₃)
    (hfail : st₃.world.ok (Cmd.dockerStop a.containers.reverse) = false) :
    ∃ ext, snapshot_manager R bc mu (pre ++ a :: post) st =
      .err ("Failed to stop " ++ a.name ++ " container(s)")
        { world := st₃.world,
          trace := st₂.trace ++ ext ++ [Cmd.dockerStop a.containers.reverse] } ∧
      st₃.trace = st₂.trace ++ ext ∧
      (∀ s, Cmd.zfsSnapshot s ∉ ext) := by
  obtain ⟨ext, he, hp⟩ := archive_snapshots_traceExt a R st₂
  rw [harch] at he
  simp only [Result.state] at he
  have hnosnap : ∀ s, Cmd.zfsSnapshot s ∉ ext := by
    intro s hs
    rcases hp _ hs with ⟨m, _, ⟨i, h⟩ | ⟨i, h⟩ | h | h | h⟩ <;>
      exact Cmd.noConfusion h
  have hstop : stop_containers a st₃ =
      .err ("Failed to stop " ++ a.name ++ " container(s)")
        { world := st₃.world,
          trace := st₃.trace ++ [Cmd.dockerStop a.containers.reverse] } := by
    simp [stop_containers, runCmd, exec, hfail]
  have hds : do_snapshot a R st₂ =
      .err ("Failed to stop " ++ a.name ++ " container(s)")
        { world := st₃.world,
          trace := st₃.trace ++ [Cmd.dockerStop a.containers.reverse] } := by
    simp only [do_snapshot, harch, Result.andThen, if_pos hcs, hstop]
  have hloop : apps_loop (fun app => do_snapshot app R) (pre ++ a :: post)
      st₁ = .err ("Failed to stop " ++ a.name ++ " container(s)")
        { world := st₃.world,
          trace := st₃.trace ++ [Cmd.dockerStop a.containers.reverse] } := by
    rw [apps_loop_append, hpre]
    simp only [Result.andThen, apps_loop, hds]
  have hsm : snapshot_manager R bc mu (pre ++ a :: post) st =
      (notifyOpt mu "up" "start" st).andThen fun st =>
        (apps_loop (fun app => do_snapshot app R) (pre ++ a :: post)
          st).andThen fun st =>
        (if bc ≠ [] then stop_backup_containers bc st else .ok st).andThen
          fun st =>
        (apps_loop do_mount (pre ++ a :: post) st).andThen fun st =>
        (if bc ≠ [] then start_backup_containers bc st else .ok st).andThen
          fun st =>
        (apps_loop (fun app => remove_last_snapshot app R)
          (pre ++ a :: post) st).andThen fun st =>
        notifyOpt mu "up" "finish" st := rfl
  refine ⟨ext, ?_, he, hnosnap⟩
  rw [hsm, hn]
  simp only [Result.andThen, hloop, he, List.append_assoc]

theorem c8_stop_failure_aborts_witness :
    ∃ ext, snapshot_manager 1 [] none ([] ++ appFail :: []) stFail =
      .err ("Failed to stop " ++ appFail.name ++ " container(s)")
        { world := stFail.world,
          trace := stFail.trace ++ ext ++
            [Cmd.dockerStop appFail.containers.reverse] } ∧
      stFail.trace = stFail.trace ++ ext ∧
      (∀ s, Cmd.zfsSnapshot s ∉ ext) :=
  c8_stop_failure_aborts 1 [] none [] [] appFail stFail stFail stFail stFail
    rfl rfl (by decide) rfl (by decide)

/-! ## Claim C4 -/

def cfC4 : ConfigFile :=
  { retention := some 3, backup_containers := some ["bc"],
    monitor_url := some "file-url", apps := [] }

def cfNone : ConfigFile :=
  { retention := none, backup_containers := none,
    monitor_url := none, apps := [] }

def argsC4 : Args :=
  { configFile := cfC4, retention := some 7,
    backup_containers := some ["cli"], monitor_url := some "cli-url" }

/-- **C4**: `read_config` does implement the claimed precedence — run-time
input first, then file value, then built-in default (retention 14, empty
backup containers, no monitor URL) — but `snapshot_manager_main` calls
`read_config(args.config)` without passing any of the parsed run-time
overrides, so the run never sees them: with `-r 7`, `-b cli`, `-m cli-url`
and a file declaring retention 3, containers `["bc"]` and URL `file-url`,
the run uses 3, `["bc"]` and `file-url`.  The final conjunct exhibits the
divergence from the claim at this input. -/
theorem c4_override_precedence :
    read_config cfC4 (some 7) (some ["cli"]) (some "cli-url") =
      { retention := 7, backup_containers := ["cli"],
        monitor_url := some "cli-url", apps := [] } ∧
    read_config cfC4 none none none =
      { retention := 3, backup_containers := ["bc"],
        monitor_url := some "file-url", apps := [] } ∧
    read_config cfNone none none none =
      { retention := 14, backup_containers := [],
        monitor_url := none, apps := [] } ∧
    DEFAULT_RETENTION = 14 ∧
    snapshot_manager_main_config argsC4 =
      { retention := 3, backup_containers := ["bc"],
        monitor_url := some "file-url", apps := [] } ∧
    (snapshot_manager_main_config argsC4).retention ≠ 7 :=
  ⟨rfl, rfl, rfl, rfl, rfl, by decide⟩

/-! ## Claim C5 -/

def cfC5 : ConfigFile :=
  { retention := some 1, backup_containers := none,
    monitor_url := some "mu", apps := [appFail] }

/-- Arguments for a run whose configuration file declares a monitor URL but
whose command line passes none. -/
def argsC5 : Args :=
  { configFile := cfC5, retention := none, backup_containers := none,
    monitor_url := none }

/-- **C5 counterexample**: the monitor endpoint is configured (via the
configuration file, so the run does send the start notification to it), a
fatal error occurs (the app's `docker stop` fails), the error propagates —
but no failure ("down") notification is dispatched anywhere: `main`'s
exception handler consults only the command-line `args.monitor_url`, which
is `None`. -/
theorem c5_counterexample :
    argsC5.configFile.monitor_url = some "mu" ∧
    main_run argsC5 stFail =
      .err ("Failed to stop " ++ "a" ++ " container(s)")
        ((main_run argsC5 stFail).state) ∧
    ((main_run argsC5 stFail).state).trace =
      [Cmd.notifyCmd "mu" "up" "start", Cmd.dockerStop ["c1"]] ∧
    ∀ url msg, Cmd.notifyCmd url "down" msg ∉
      ((main_run argsC5 stFail).state).trace := by
  refine ⟨rfl, rfl, rfl, ?_⟩
  intro url msg h
  rw [show ((main_run argsC5 stFail).state).trace =
    [Cmd.notifyCmd "mu" "up" "start", Cmd.dockerStop ["c1"]] from rfl] at h
  rcases List.mem_cons.mp h with h' | h'
  · exact absurd (Cmd.notifyCmd.inj h').2.1 (by decide)
  · rw [List.mem_singleton] at h'
    exact Cmd.noConfusion h'

/-- **C5 amended**: when the monitor endpoint is provided as a run-time
override (`args.monitor_url`), any fatal error in `snapshot_manager_main`
skips all remaining phases (the run's state is exactly the state at the
failure), dispatches a best-effort "down"/"exception" notification to that
endpoint, and re-raises the error to the caller; an endpoint configured
only in the configuration file is used for the start/finish notifications
but not for the failure notification. -/
theorem c5_abort_notification (args : Args) (st : St) (u : String)
    (e : String) (st' : St)
    (hmu : args.monitor_url = some u)
    (hrun : snapshot_manager_main args st = .err e st') :
    main_run args st = .err e
      { world := st'.world,
        trace := st'.trace ++ [Cmd.notifyCmd u "down" "exception"] } := by
  simp only [main_run, hrun, hmu, send_notification, runCmd, exec,
    Result.andThen]

def cfC5b : ConfigFile :=
  { retention := some 1, backup_containers := none,
    monitor_url := none, apps := [appFail] }

/-- Arguments for a run whose command line passes the monitor URL. -/
def argsC5b : Args :=
  { configFile := cfC5b, retention := none, backup_containers := none,
    monitor_url := some "mu" }

theorem c5_abort_notification_witness :
    main_run argsC5b stFail =
      .err ("Failed to stop " ++ "a" ++ " container(s)")
        { world := ((snapshot_manager_main argsC5b stFail).state).world,
          trace := ((snapshot_manager_main argsC5b stFail).state).trace ++
            [Cmd.notifyCmd "mu" "down" "exception"] } :=
  c5_abort_notification argsC5b stFail "mu"
    ("Failed to stop " ++ "a" ++ " container(s)")
    ((snapshot_manager_main argsC5b stFail).state) rfl rfl

/-! ## Claim C7 -/

/-- The loop body of `do_mount`: republish one publication unit — unmount
the previous view, then mount the newest snapshot. -/
def republish (m : Mount) (nm : String) (st : St) : Result :=
  (unmount_mount m nm st).andThen fun st => mount_mount m nm st

/-- The commands the child-unmount loop issues, from the mount table at
loop entry. -/
def unmountChildrenTrace (dest : String) (children : List String)
    (M : List MPath) : List Cmd :=
  match children with
  | [] => []
  | c :: rest =>
    (if MPath.sub dest c ∈ M then
      [Cmd.mountpointCheck (.sub dest c), Cmd.umountCmd (.sub dest c)]
    else [Cmd.mountpointCheck (.sub dest c)]) ++
      unmountChildrenTrace dest rest M

/-- The commands `unmount_mount` issues, from the mount table at entry. -/
def unmountTrace (m : Mount) (M : List MPath) : List Cmd :=
  if MPath.root m.destination ∈ M then
    Cmd.mountpointCheck (.root m.destination) ::
      (unmountChildrenTrace m.destination m.children M ++
        [Cmd.umountCmd (.root m.destination)])
  else [Cmd.mountpointCheck (.root m.destination)]

/-- The commands `mount_mount` issues when every step succeeds. -/
def mountTrace (m : Mount) : List Cmd :=
  Cmd.mkdirCmd (.root m.destination) ::
    Cmd.mountCmd (.cur m.origin) (.root m.destination) ::
    m.children.map fun c =>
      Cmd.mountCmd (.cur (m.origin ++ "/" ++ c)) (.sub m.destination c)

lemma unmountChildrenTrace_congr {dest : String} {children : List String}
    {M₁ M₂ : List MPath}
    (h : ∀ c ∈ children, (MPath.sub dest c ∈ M₁ ↔ MPath.sub dest c ∈ M₂)) :
    unmountChildrenTrace dest children M₁ =
      unmountChildrenTrace dest children M₂ := by
  induction children with
  | nil => rfl
  | cons c rest ih =>
    have hc := h c (List.mem_cons_self c rest)
    simp only [unmountChildrenTrace]
    rw [ih fun c' hc' => h c' (List.mem_cons_of_mem c hc')]
    by_cases hm : MPath.sub dest c ∈ M₁
    · rw [if_pos hm, if_pos (hc.mp hm)]
    · rw [if_neg hm, if_neg fun hh => hm (hc.mpr hh)]

lemma sub_ne_sub {dest : String} {c c' : String} (h : c ≠ c') :
    MPath.sub dest c ≠ MPath.sub dest c' := by
  intro hh
  exact h (MPath.sub.inj hh).2

lemma unmount_children_spec (children : List String) (dest nm : String)
    (st : St)
    (hok : ∀ c, st.world.ok c = true)
    (hnd : st.world.mounted.Nodup)
    (hndc : children.Nodup) :
    ∃ st', unmount_children_loop children dest nm st = .ok st' ∧
      st'.world.ok = st.world.ok ∧
      st'.world.snaps = st.world.snaps ∧
      st'.world.mounted.Nodup ∧
      st'.trace = st.trace ++
        unmountChildrenTrace dest children st.world.mounted ∧
      (∀ p : MPath, p ∈ st'.world.mounted ↔
        (p ∈ st.world.mounted ∧ ∀ c ∈ children, p ≠ .sub dest c)) := by
  induction children generalizing st with
  | nil =>
    refine ⟨st, rfl, rfl, rfl, hnd, by simp [unmountChildrenTrace], ?_⟩
    intro p
    simp
  | cons child rest ih =>
    rcases List.nodup_cons.mp hndc with ⟨hcr, hndr⟩
    by_cases hm : MPath.sub dest child ∈ st.world.mounted
    · have hstep : unmount_children_loop (child :: rest) dest nm st =
          unmount_children_loop rest dest nm
            { world := { st.world with
                           mounted := st.world.mounted.erase
                             (.sub dest child) },
              trace := st.trace ++ [.mountpointCheck (.sub dest child),
                .umountCmd (.sub dest child)] } := by
        simp [unmount_children_loop, runCmd, exec, hm, hok]
      obtain ⟨st', hrun, hok', hsnap', hnd', htr', hmem'⟩ :=
        ih { world := { st.world with
                          mounted := st.world.mounted.erase
                            (.sub dest child) },
             trace := st.trace ++ [.mountpointCheck (.sub dest child),
               .umountCmd (.sub dest child)] }
          (fun c => hok c) (hnd.erase _) hndr
      refine ⟨st', hstep.trans hrun, hok', hsnap', hnd', ?_, ?_⟩
      · rw [htr']
        have hcongr : unmountChildrenTrace dest rest
            (st.world.mounted.erase (.sub dest child)) =
            unmountChildrenTrace dest rest st.world.mounted := by
          apply unmountChildrenTrace_congr
          intro c' hc'
          exact List.mem_erase_of_ne
            (sub_ne_sub fun hh => hcr (hh ▸ hc'))
        simp only [hcongr, unmountChildrenTrace, if_pos hm,
          List.append_assoc]
      · intro p
        rw [hmem' p]
        constructor
        · rintro ⟨hp, hrest⟩
          have hp' := (hnd.mem_erase_iff.mp hp)
          refine ⟨hp'.2, ?_⟩
          intro c' hc'
          rcases List.mem_cons.mp hc' with rfl | hc'
          · exact hp'.1
          · exact hrest c' hc'
        · rintro ⟨hp, hall⟩
          refine ⟨hnd.mem_erase_iff.mpr
            ⟨hall child (List.mem_cons_self child rest), hp⟩, ?_⟩
          intro c' hc'
          exact hall c' (List.mem_cons_of_mem child hc')
    · have hstep : unmount_children_loop (child :: rest) dest nm st =
          unmount_children_loop rest dest nm
            { world := st.world,
              trace := st.trace ++
                [.mountpointCheck (.sub dest child)] } := by
        simp [unmount_children_loop, runCmd, exec, hm]
      obtain ⟨st', hrun, hok', hsnap', hnd', htr', hmem'⟩ :=
        ih { world := st.world,
             trace := st.trace ++ [.mountpointCheck (.sub dest child)] }
          (fun c => hok c) hnd hndr
      refine ⟨st', hstep.trans hrun, hok', hsnap', hnd', ?_, ?_⟩
      · rw [htr']
        simp only [unmountChildrenTrace, if_neg hm, List.append_assoc,
          List.singleton_append]
      · intro p
        rw [hmem' p]
        constructor
        · rintro ⟨hp, hrest⟩
          refine ⟨hp, ?_⟩
          intro c' hc'
          rcases List.mem_cons.mp hc' with rfl | hc'
          · exact fun hh => hm (hh ▸ hp)
          · exact hrest c' hc'
        · rintro ⟨hp, hall⟩
          exact ⟨hp, fun c' hc' => hall c' (List.mem_cons_of_mem child hc')⟩

lemma unmount_mount_spec (m : Mount) (nm : String) (st : St)
    (hok : ∀ c, st.world.ok c = true)
    (hnd : st.world.mounted.Nodup)
    (hndc : m.children.Nodup) :
    ∃ st', unmount_mount m nm st = .ok st' ∧
      st'.world.ok = st.world.ok ∧
      st'.world.snaps = st.world.snaps ∧
      st'.trace = st.trace ++ unmountTrace m st.world.mounted := by
  by_cases hroot : MPath.root m.destination ∈ st.world.mounted
  · have hstep : unmount_mount m nm st =
        (unmount_children_loop m.children m.destination nm
          { world := st.world,
            trace := st.trace ++
              [.mountpointCheck (.root m.destination)] }).andThen fun st =>
          let q := runCmd (.umountCmd (.root m.destination)) st
          if q.1 ≠ 0 then
            .err ("Failed to unmount " ++ nm ++ " " ++ m.destination ++
              " snapshot") q.2
          else .ok q.2 := by
      simp [unmount_mount, runCmd, exec, hroot]
    obtain ⟨st₂, hrun2, hok2, hsnap2, hnd2, htr2, hmem2⟩ :=
      unmount_children_spec m.children m.destination nm
        { world := st.world,
          trace := st.trace ++ [.mountpointCheck (.root m.destination)] }
        (fun c => hok c) hnd hndc
    have hrootin : MPath.root m.destination ∈ st₂.world.mounted :=
      (hmem2 _).mpr ⟨hroot, fun c _ hh => MPath.noConfusion hh⟩
    have hok2' : st₂.world.ok (Cmd.umountCmd (.root m.destination)) = true := by
      rw [hok2]
      exact hok _
    refine ⟨{ world := { st₂.world with
                           mounted := st₂.world.mounted.erase
                             (.root m.destination) },
              trace := st₂.trace ++ [.umountCmd (.root m.destination)] },
      ?_, ?_, ?_, ?_⟩
    · rw [hstep, hrun2]
      simp [Result.andThen, runCmd, exec, hok2', hrootin]
    · simp only []
      rw [hok2]
    · simp only []
      rw [hsnap2]
    · simp only []
      rw [htr2]
      simp only [unmountTrace, if_pos hroot, List.append_assoc,
        List.singleton_append, List.cons_append, List.nil_append]
  · refine ⟨{ world := st.world,
              trace := st.trace ++
                [.mountpointCheck (.root m.destination)] }, ?_, rfl, rfl, ?_⟩
    · simp [unmount_mount, runCmd, exec, hroot]
    · simp only [unmountTrace, if_neg hroot]

lemma mount_children_loop_spec (children : List String)
    (origin dest nm : String) (st : St)
    (hok : ∀ c, st.world.ok c = true) :
    ∃ st', mount_children_loop children origin dest nm st = .ok st' ∧
      st'.world.ok = st.world.ok ∧
      st'.trace = st.trace ++ children.map fun c =>
        Cmd.mountCmd (.cur (origin ++ "/" ++ c)) (.sub dest c) := by
  induction children generalizing st with
  | nil => exact ⟨st, rfl, rfl, by simp⟩
  | cons child rest ih =>
    have hstep : mount_children_loop (child :: rest) origin dest nm st =
        mount_children_loop rest origin dest nm
          { world := { st.world with
                         mounted := st.world.mounted ++ [.sub dest child] },
            trace := st.trace ++
              [.mountCmd (.cur (origin ++ "/" ++ child))
                (.sub dest child)] } := by
      simp [mount_children_loop, runCmd, exec, hok]
    obtain ⟨st', hrun, hok', htr'⟩ :=
      ih { world := { st.world with
                        mounted := st.world.mounted ++ [.sub dest child] },
           trace := st.trace ++
             [.mountCmd (.cur (origin ++ "/" ++ child)) (.sub dest child)] }
        (fun c => hok c)
    refine ⟨st', hstep.trans hrun, hok', ?_⟩
    rw [htr']
    simp [List.append_assoc]

lemma mount_mount_spec (m : Mount) (nm : String) (st : St)
    (hok : ∀ c, st.world.ok c = true) :
    ∃ st', mount_mount m nm st = .ok st' ∧
      st'.world.ok = st.world.ok ∧
      st'.trace = st.trace ++ mountTrace m := by
  have hstep : mount_mount m nm st =
      mount_children_loop m.children m.origin m.destination nm
        { world := { st.world with
                       mounted := st.world.mounted ++ [.root m.destination] },
          trace := st.trace ++ [.mkdirCmd (.root m.destination),
            .mountCmd (.cur m.origin) (.root m.destination)] } := by
    simp [mount_mount, runCmd, exec, hok]
  obtain ⟨st', hrun, hok', htr'⟩ :=
    mount_children_loop_spec m.children m.origin m.destination nm
      { world := { st.world with
                     mounted := st.world.mounted ++ [.root m.destination] },
        trace := st.trace ++ [.mkdirCmd (.root m.destination),
          .mountCmd (.cur m.origin) (.root m.destination)] }
      (fun c => hok c)
  refine ⟨st', hstep.trans hrun, hok', ?_⟩
  rw [htr']
  simp [mountTrace, List.append_assoc]

/-- **C7**: `republish` (the per-mount body of `do_mount`) with declared
children: only when the destination is currently a mount point does it
unmount — first each currently-mounted `destination/child` (in declared
order, each guarded by its own mount-point check), then `destination`
itself; it then creates the destination directory, mounts `origin@backup`
at `destination`, and finally mounts each `origin/child@backup` at
`destination/child` in declared order (this is exactly
`unmountTrace ++ mountTrace`).  When the destination was never mounted the
unmount phase issues no `umount` at all — for any oracle — so `republish`
is safe on a first run. -/
theorem c7_republish_order (m : Mount) (nm : String) (st : St)
    (hok : ∀ c, st.world.ok c = true)
    (hnd : st.world.mounted.Nodup)
    (hndc : m.children.Nodup) :
    (∃ st', republish m nm st = .ok st' ∧
      st'.trace = st.trace ++ unmountTrace m st.world.mounted ++
        mountTrace m) ∧
    (MPath.root m.destination ∉ st.world.mounted →
      (unmount_mount m nm st = .ok
        { world := st.world,
          trace := st.trace ++
            [Cmd.mountpointCheck (.root m.destination)] } ∧
      ∀ p, Cmd.umountCmd p ∉
        unmountTrace m st.world.mounted ++ mountTrace m)) := by
  constructor
  · obtain ⟨st₁, hrun1, hok1, hsnap1, htr1⟩ :=
      unmount_mount_spec m nm st hok hnd hndc
    obtain ⟨st₂, hrun2, hok2, htr2⟩ := mount_mount_spec m nm st₁
      fun c => by rw [hok1]; exact hok c
    refine ⟨st₂, ?_, ?_⟩
    · simp only [republish, hrun1, Result.andThen, hrun2]
    · rw [htr2, htr1, List.append_assoc]
  · intro hroot
    constructor
    · simp [unmount_mount, runCmd, exec, hroot]
    · intro p hp
      rcases List.mem_append.mp hp with hp | hp
      · rw [unmountTrace, if_neg hroot] at hp
        rw [List.mem_singleton] at hp
        exact Cmd.noConfusion hp
      · rw [mountTrace] at hp
        rcases List.mem_cons.mp hp with hp | hp
        · exact Cmd.noConfusion hp
        · rcases List.mem_cons.mp hp with hp | hp
          · exact Cmd.noConfusion hp
          · obtain ⟨c, _, hc⟩ := List.mem_map.mp hp
            exact Cmd.noConfusion hc

def mountCh : Mount :=
  { origin := "tank/app", destination := "/mnt/app",
    children := ["db", "files"] }

def stMnt : St :=
  { world := { snaps := [],
               mounted := [.root "/mnt/app", .sub "/mnt/app" "db"],
               ok := okAll },
    trace := [] }

theorem c7_republish_order_witness :
    (∃ st', republish mountCh "app" stMnt = .ok st' ∧
      st'.trace = stMnt.trace ++
        unmountTrace mountCh stMnt.world.mounted ++ mountTrace mountCh) ∧
    (MPath.root mountCh.destination ∉ stMnt.world.mounted →
      (unmount_mount mountCh "app" stMnt = .ok
        { world := stMnt.world,
          trace := stMnt.trace ++
            [Cmd.mountpointCheck (.root mountCh.destination)] } ∧
      ∀ p, Cmd.umountCmd p ∉
        unmountTrace mountCh stMnt.world.mounted ++ mountTrace mountCh)) :=
  c7_republish_order mountCh "app" stMnt (fun c => rfl) (by decide)
    (by decide)

/-! ## Claim C6 -/

lemma Result.andThen_ok {r : Result} {g : St → Result} {st' : St}
    (h : r.andThen g = .ok st') :
    ∃ stm, r = .ok stm ∧ g stm = .ok st' := by
  cases r with
  | ok stm => exact ⟨stm, rfl, h⟩
  | err e stm => exact Result.noConfusion h

/-- The notification commands of the optional-notification step. -/
def notifyTrace (mu : Option String) (status msg : String) : List Cmd :=
  match mu with
  | some u => [Cmd.notifyCmd u status msg]
  | none => []

lemma notifyOpt_ok (mu : Option String) (status msg : String) (st : St) :
    ∃ st', notifyOpt mu status msg st = .ok st' ∧
      st'.world = st.world ∧
      st'.trace = st.trace ++ notifyTrace mu status msg := by
  cases mu with
  | none => exact ⟨st, rfl, rfl, by simp [notifyTrace]⟩
  | some u =>
    refine ⟨{ world := st.world,
              trace := st.trace ++ [Cmd.notifyCmd u status msg] },
      ?_, rfl, by simp [notifyTrace]⟩
    simp [notifyOpt, send_notification, runCmd, exec]

lemma stop_containers_trace (a : App) (st : St) :
    (stop_containers a st).state.trace =
      st.trace ++ [Cmd.dockerStop a.containers.reverse] := by
  simp only [stop_containers, runCmd]
  split <;> simp [Result.state]

lemma start_containers_trace (a : App) (st : St) :
    (start_containers a st).state.trace =
      st.trace ++ [Cmd.dockerStart a.containers] := by
  simp only [start_containers, runCmd]
  split <;> simp [Result.state]

lemma stop_backup_trace (bc : List String) (st : St) :
    (stop_backup_containers bc st).state.trace =
      st.trace ++ [Cmd.dockerStop bc.reverse] := by
  simp only [stop_backup_containers, runCmd]
  split <;> simp [Result.state]

lemma start_backup_trace (bc : List String) (st : St) :
    (start_backup_containers bc st).state.trace =
      st.trace ++ [Cmd.dockerStart bc] := by
  simp only [start_backup_containers, runCmd]
  split <;> simp [Result.state]

lemma snapshot_mounts_loop_ok (mounts : List Mount) (nm : String) :
    ∀ st st', snapshot_mounts_loop mounts nm st = .ok st' →
      st'.trace = st.trace ++
        mounts.map fun m => Cmd.zfsSnapshot (.cur m.origin) := by
  induction mounts with
  | nil =>
    intro st st' h
    simp only [snapshot_mounts_loop] at h
    cases h
    simp
  | cons m rest ih =>
    intro st st' h
    simp only [snapshot_mounts_loop, runCmd] at h
    split at h
    · exact Result.noConfusion h
    · have := ih _ _ h
      rw [this]
      simp [List.append_assoc]

lemma apps_loop_ok_ext {f : App → St → Result} {Q : App → List Cmd → Prop}
    (hf : ∀ a st st', f a st = .ok st' →
      ∃ e, st'.trace = st.trace ++ e ∧ Q a e) :
    ∀ {apps : List App} {st st' : St}, apps_loop f apps st = .ok st' →
      ∃ exts : List (List Cmd), st'.trace = st.trace ++ exts.flatten ∧
        List.Forall₂ Q apps exts := by
  intro apps
  induction apps with
  | nil =>
    intro st st' h
    simp only [apps_loop] at h
    cases h
    exact ⟨[], by simp, List.Forall₂.nil⟩
  | cons a rest ih =>
    intro st st' h
    simp only [apps_loop] at h
    obtain ⟨stm, h1, h2⟩ := Result.andThen_ok h
    obtain ⟨e, he, hq⟩ := hf a st stm h1
    obtain ⟨exts, hexts, hfa⟩ := ih h2
    refine ⟨e :: exts, ?_, List.Forall₂.cons hq hfa⟩
    rw [hexts, he]
    simp [List.append_assoc]

lemma do_snapshot_ok_ext (R : Nat) (a : App) (st st' : St)
    (h : do_snapshot a R st = .ok st') :
    ∃ e1, (∀ c ∈ e1, ∃ m ∈ a.mounts, ArchCmd m.origin R c) ∧
      st'.trace = st.trace ++
        (e1 ++
          (if a.containers ≠ [] then [Cmd.dockerStop a.containers.reverse]
            else []) ++
          (a.mounts.map fun m => Cmd.zfsSnapshot (.cur m.origin)) ++
          (if a.containers ≠ [] then [Cmd.dockerStart a.containers]
            else [])) := by
  simp only [do_snapshot] at h
  obtain ⟨st₁, h1, h⟩ := Result.andThen_ok h
  obtain ⟨st₂, h2, h⟩ := Result.andThen_ok h
  obtain ⟨st₃, h3, h4⟩ := Result.andThen_ok h
  obtain ⟨e1, he1, hp1⟩ := archive_snapshots_traceExt a R st
  rw [h1] at he1
  simp only [Result.state] at he1
  have htr2 : st₂.trace = st₁.trace ++
      (if a.containers ≠ [] then [Cmd.dockerStop a.containers.reverse]
        else []) := by
    by_cases hc : a.containers ≠ []
    · rw [if_pos hc] at h2 ⊢
      have := stop_containers_trace a st₁
      rw [h2] at this
      simpa [Result.state] using this
    · rw [if_neg hc] at h2
      cases h2
      simp [if_neg hc]
  have htr3 : st₃.trace = st₂.trace ++
      (a.mounts.map fun m => Cmd.zfsSnapshot (.cur m.origin)) :=
    snapshot_mounts_loop_ok a.mounts a.name st₂ st₃ h3
  have htr4 : st'.trace = st₃.trace ++
      (if a.containers ≠ [] then [Cmd.dockerStart a.containers]
        else []) := by
    by_cases hc : a.containers ≠ []
    · rw [if_pos hc] at h4 ⊢
      have := start_containers_trace a st₃
      rw [h4] at this
      simpa [Result.state] using this
    · rw [if_neg hc] at h4
      cases h4
      simp [if_neg hc]
  refine ⟨e1, hp1, ?_⟩
  rw [htr4, htr3, htr2, he1]
  simp [List.append_assoc]

lemma guard_bstop_ok (bc : List String) (st st' : St)
    (h : (if bc ≠ [] then stop_backup_containers bc st else .ok st) =
      .ok st') :
    st'.trace = st.trace ++
      (if bc ≠ [] then [Cmd.dockerStop bc.reverse] else []) := by
  by_cases hbc : bc ≠ []
  · rw [if_pos hbc] at h ⊢
    have := stop_backup_trace bc st
    rw [h] at this
    simpa [Result.state] using this
  · rw [if_neg hbc] at h
    cases h
    simp [if_neg hbc]

lemma guard_bstart_ok (bc : List String) (st st' : St)
    (h : (if bc ≠ [] then start_backup_containers bc st else .ok st) =
      .ok st') :
    st'.trace = st.trace ++
      (if bc ≠ [] then [Cmd.dockerStart bc] else []) := by
  by_cases hbc : bc ≠ []
  · rw [if_pos hbc] at h ⊢
    have := start_backup_trace bc st
    rw [h] at this
    simpa [Result.state] using this
  · rw [if_neg hbc] at h
    cases h
    simp [if_neg hbc]

/-- **C6**: one successful cycle executes its phases in the claimed order:
the start notification; then for each app in configured order an archive
block (only archive commands), the app's container stop (skipped when it
has no containers), one snapshot creation per mount in order, the app's
container start; only after all apps, the backup-group stop (skipped when
the group is empty); then per app the remount block (only mount-layer
commands); then the backup-group start; then per app the prune block (only
`zfs list`/`zfs destroy` of `backup-R`) — so pruning always happens after
the containers are back up; finally the finish notification. -/
theorem c6_phase_order (R : Nat) (bc : List String) (mu : Option String)
    (apps : List App) (st st' : St)
    (h : snapshot_manager R bc mu apps st = .ok st') :
    ∃ snapExts mountExts pruneExts : List (List Cmd),
      st'.trace = st.trace ++ notifyTrace mu "up" "start" ++
        snapExts.flatten ++
        (if bc ≠ [] then [Cmd.dockerStop bc.reverse] else []) ++
        mountExts.flatten ++
        (if bc ≠ [] then [Cmd.dockerStart bc] else []) ++
        pruneExts.flatten ++ notifyTrace mu "up" "finish" ∧
      List.Forall₂ (fun (a : App) e => ∃ e1,
        (∀ c ∈ e1, ∃ m ∈ a.mounts, ArchCmd m.origin R c) ∧
        e = e1 ++
          (if a.containers ≠ [] then [Cmd.dockerStop a.containers.reverse]
            else []) ++
          (a.mounts.map fun m => Cmd.zfsSnapshot (.cur m.origin)) ++
          (if a.containers ≠ [] then [Cmd.dockerStart a.containers]
            else [])) apps snapExts ∧
      List.Forall₂ (fun (_ : App) e => ∀ c ∈ e, Cmd.isMountOp c = true)
        apps mountExts ∧
      List.Forall₂ (fun (a : App) e => ∀ c ∈ e, ∃ m ∈ a.mounts,
        c = Cmd.zfsList (.gen m.origin R) ∨
        c = Cmd.zfsDestroy (.gen m.origin R)) apps pruneExts := by
  have hsm : snapshot_manager R bc mu apps st =
      (notifyOpt mu "up" "start" st).andThen fun st =>
        (apps_loop (fun app => do_snapshot app R) apps st).andThen fun st =>
        (if bc ≠ [] then stop_backup_containers bc st else .ok st).andThen
          fun st =>
        (apps_loop do_mount apps st).andThen fun st =>
        (if bc ≠ [] then start_backup_containers bc st else .ok st).andThen
          fun st =>
        (apps_loop (fun app => remove_last_snapshot app R) apps st).andThen
          fun st => notifyOpt mu "up" "finish" st := rfl
  rw [hsm] at h
  obtain ⟨st₁, h1, h⟩ := Result.andThen_ok h
  obtain ⟨st₂, h2, h⟩ := Result.andThen_ok h
  obtain ⟨st₃, h3, h⟩ := Result.andThen_ok h
  obtain ⟨st₄, h4, h⟩ := Result.andThen_ok h
  obtain ⟨st₅, h5, h⟩ := Result.andThen_ok h
  obtain ⟨st₆, h6, h7⟩ := Result.andThen_ok h
  obtain ⟨st₁', hn1, _, htr1⟩ := notifyOpt_ok mu "up" "start" st
  rw [h1] at hn1
  cases hn1
  have hfsnap : ∀ (a : App) (stA stB : St),
      do_snapshot a R stA = .ok stB →
      ∃ e, stB.trace = stA.trace ++ e ∧
        ∃ e1, (∀ c ∈ e1, ∃ m ∈ a.mounts, ArchCmd m.origin R c) ∧
          e = e1 ++
            (if a.containers ≠ [] then [Cmd.dockerStop a.containers.reverse]
              else []) ++
            (a.mounts.map fun m => Cmd.zfsSnapshot (.cur m.origin)) ++
            (if a.containers ≠ [] then [Cmd.dockerStart a.containers]
              else []) := by
    intro a stA stB hh
    obtain ⟨e1, hp, htr⟩ := do_snapshot_ok_ext R a stA stB hh
    exact ⟨_, htr, e1, hp, rfl⟩
  obtain ⟨snapExts, htr2, hfa1⟩ := apps_loop_ok_ext hfsnap h2
  have htr3 := guard_bstop_ok bc st₂ st₃ h3
  have hfmnt : ∀ (a : App) (stA stB : St), do_mount a stA = .ok stB →
      ∃ e, stB.trace = stA.trace ++ e ∧
        ∀ c ∈ e, Cmd.isMountOp c = true := by
    intro a stA stB hh
    obtain ⟨e, he, hp⟩ := do_mount_traceExt a stA
    rw [hh] at he
    simp only [Result.state] at he
    exact ⟨e, he, hp⟩
  obtain ⟨mountExts, htr4, hfa2⟩ := apps_loop_ok_ext hfmnt h4
  have htr5 := guard_bstart_ok bc st₄ st₅ h5
  have hfprune : ∀ (a : App) (stA stB : St),
      remove_last_snapshot a R stA = .ok stB →
      ∃ e, stB.trace = stA.trace ++ e ∧
        ∀ c ∈ e, ∃ m ∈ a.mounts, c = Cmd.zfsList (.gen m.origin R) ∨
          c = Cmd.zfsDestroy (.gen m.origin R) := by
    intro a stA stB hh
    obtain ⟨e, he, hp⟩ := remove_last_traceExt a R stA
    rw [hh] at he
    simp only [Result.state] at he
    exact ⟨e, he, hp⟩
  obtain ⟨pruneExts, htr6, hfa3⟩ := apps_loop_ok_ext hfprune h6
  obtain ⟨st₇', hn7, _, htr7⟩ := notifyOpt_ok mu "up" "finish" st₆
  rw [h7] at hn7
  cases hn7
  refine ⟨snapExts, mountExts, pruneExts, ?_, hfa1, hfa2, hfa3⟩
  rw [htr7, htr6, htr5, htr4, htr3, htr2, htr1]

theorem c6_phase_order_witness :
    ∃ snapExts mountExts pruneExts : List (List Cmd),
      ((snapshot_manager 2 ["b1"] (some "mu") [appWeb] stRun).state).trace =
        stRun.trace ++ notifyTrace (some "mu") "up" "start" ++
        snapExts.flatten ++
        (if (["b1"] : List String) ≠ [] then
          [Cmd.dockerStop (["b1"] : List String).reverse] else []) ++
        mountExts.flatten ++
        (if (["b1"] : List String) ≠ [] then
          [Cmd.dockerStart ["b1"]] else []) ++
        pruneExts.flatten ++ notifyTrace (some "mu") "up" "finish" ∧
      List.Forall₂ (fun (a : App) e => ∃ e1,
        (∀ c ∈ e1, ∃ m ∈ a.mounts, ArchCmd m.origin 2 c) ∧
        e = e1 ++
          (if a.containers ≠ [] then [Cmd.dockerStop a.containers.reverse]
            else []) ++
          (a.mounts.map fun m => Cmd.zfsSnapshot (.cur m.origin)) ++
          (if a.containers ≠ [] then [Cmd.dockerStart a.containers]
            else [])) [appWeb] snapExts ∧
      List.Forall₂ (fun (_ : App) e => ∀ c ∈ e, Cmd.isMountOp c = true)
        [appWeb] mountExts ∧
      List.Forall₂ (fun (a : App) e => ∀ c ∈ e, ∃ m ∈ a.mounts,
        c = Cmd.zfsList (.gen m.origin 2) ∨
        c = Cmd.zfsDestroy (.gen m.origin 2)) [appWeb] pruneExts :=
  c6_phase_order 2 ["b1"] (some "mu") [appWeb] stRun
    ((snapshot_manager 2 ["b1"] (some "mu") [appWeb] stRun).state) rfl
